import Mathlib

/-!
Kanshi: profile matching, mode selection and the apply engine

A shallow embedding of `main.c`: `match_profile_output`, `match_profile`,
`match`, `match_refresh`, `match_mode`, `apply_profile`, the three
configuration outcome handlers, `match_and_apply`, `kanshi_switch`,
`output_manager_handle_done`, `destroy_config` and `kanshi_reload_config`,
and of `apply_profile_done`, `handle_reload` and `handle_switch` of `ipc.c`,
followed by the properties proved of them. The parser and `config.h` are not
among the sources: the profile store and the order in which the parser
stores the outputs of a profile are modelled from the spec.

Conventions of the embedding.

* A `wl_list` is a `List` in iteration order (`wl_list_for_each`).
* `int`/`int32_t` values are `Int`; the one subtraction and the `abs` of
  `match_refresh` wrap to 32 bits. `uint32_t serial` is a `Nat` (it is only
  stored and compared).
* A pointer to a profile or to a profile output is the pair of an address and
  the object (`ptr`); profiles and their outputs are not mutated once parsed.
  The address of a profile is its position in the store in use; a pointer
  into a store that `destroy_config` has freed is never read or compared.
* A function returns `none` where the C program does not return or its
  behaviour is undefined: a failed `assert` (the process aborts) or a read
  through a null, out-of-bounds or dangling pointer. Every other result is
  `some`.
* The requests sent to the compositor, the commands executed and the
  completion callbacks invoked are recorded in `effects`, which the functions
  of the apply engine take and return next to the session state.
* The daemon is single-threaded: `step` is its reaction to one event and
  `run` its reaction to a sequence of events.
* Messages written to `stderr` are not part of the model.
-/

namespace Kanshi

/-! ## Data model -/

/-- The `HEADS_MAX` constant of `main.c`. -/
abbrev HEADS_MAX : Nat := 64

/-- The `INT32_MAX` constant of `stdint.h`. -/
def INT32_MAX : Int := 2147483647

/-- A C pointer to an object that is not mutated while the pointer is held:
the address of the object (its identity) together with the object itself.
For a node of a `wl_list` the address is the node's position in its list.
Pointer comparison compares addresses. -/
structure ptr (α : Type) where
  addr : Nat
  val : α
deriving DecidableEq, Repr

/-- The C `struct kanshi_mode` of `kanshi.h` (the back pointer `head` left out);
`wlr_mode` is the handle of the protocol object. -/
structure kanshi_mode where
  wlr_mode : Nat
  width : Int
  height : Int
  refresh : Int
  preferred : Bool
deriving DecidableEq, Repr

/-- The C `struct kanshi_head` of `kanshi.h`, restricted to the members read by the
matcher, the mode selector and the apply engine. A `char *` member that may
be `NULL` is an `Option String`. -/
structure kanshi_head where
  wlr_head : Nat
  name : Option String
  make : Option String
  model : Option String
  serial_number : Option String
  modes : List kanshi_mode
  enabled : Bool
deriving DecidableEq, Repr

/-- A C `double`, kept as its bit pattern: no arithmetic is done on it here. -/
structure double where
  bits : Nat
deriving DecidableEq, Repr

/-- Modelled from the spec: `config.h` is not among the sources. The member
`fields` of `struct kanshi_profile_output` is a bit mask tested with
`fields & KANSHI_OUTPUT_ENABLED`, `... & KANSHI_OUTPUT_MODE` and so on; the
spec calls the bits "desired fields, each independently present-or-absent".
One flag per bit. -/
structure kanshi_output_fields where
  enabled : Bool
  mode : Bool
  position : Bool
  scale : Bool
  transform : Bool
  adaptive_sync : Bool
deriving DecidableEq, Repr

/-- Modelled from the spec: the member `mode` of `struct kanshi_profile_output`
(`config.h` is not among the sources): "target mode (width, height, optional
refresh target; refresh omitted means pick best available)", read by
`apply_profile` as `mode.width`, `mode.height`, `mode.refresh`. -/
structure kanshi_output_mode where
  width : Int
  height : Int
  refresh : Int
deriving DecidableEq, Repr

/-- Modelled from the spec: `struct kanshi_profile_output` of `config.h`, which
is not among the sources: "a target selector string ... plus an optional set
of desired fields: enabled flag, target mode, position, scale, transform,
adaptive-sync". The members are those `main.c` reads. -/
structure kanshi_profile_output where
  name : String
  fields : kanshi_output_fields
  enabled : Bool
  mode : kanshi_output_mode
  position_x : Int
  position_y : Int
  scale : double
  transform : Nat
  adaptive_sync : Bool
deriving DecidableEq, Repr

/-- Modelled from the spec: `struct kanshi_profile` of `config.h`, which is not
among the sources: "an ordered list of Output Constraints plus an ordered
list of shell commands"; `main.c` reads `name`, `outputs` and `commands`. -/
structure kanshi_profile where
  name : String
  outputs : List kanshi_profile_output
  commands : List String
deriving DecidableEq, Repr

/-- Modelled from the spec: the parser, which is not among the sources, builds
the list `outputs` of a profile from the constraints in the order the
configuration file declares them. Section 3: "wildcards are conceptually
evaluated last, regardless of their declared position"; the comment in
`match_profile` (lines 51-52): "Wildcards are stored at the end of the list".
The constraints that are not wildcards are stored first, in declared order
(section 4.2: "for each constraint in profile order"), the wildcards after
them. -/
def store_outputs (declared : List kanshi_profile_output) : List kanshi_profile_output :=
  declared.filter (fun c => c.name != "*") ++ declared.filter (fun c => c.name == "*")

/-- Modelled from the spec: `struct kanshi_config` of `config.h`, which is not
among the sources: the "ordered list of user-declared profiles", read by
`main.c` as `config->profiles`. -/
structure kanshi_config where
  profiles : List kanshi_profile
deriving DecidableEq, Repr

/-- The C `struct kanshi_state` of `kanshi.h`, restricted to the members the matcher
and the apply engine use. -/
structure kanshi_state where
  config : kanshi_config
  heads : List kanshi_head
  serial : Nat
  current_profile : Option (ptr kanshi_profile)
  pending_profile : Option (ptr kanshi_profile)
deriving DecidableEq, Repr

/-- The array `struct kanshi_profile_output *matches[HEADS_MAX]` (named
`matched` below, `matches` being a reserved word): entry `i` is
`NULL` (`none`) or points to the profile output matched to the `i`-th head. -/
abbrev matches_t := List (Option (ptr kanshi_profile_output))

/-! ## Matcher (`main.c`, lines 26-89) -/

/-- The C `strlen`: the number of bytes of the string. -/
def strlen (s : String) : Nat := s.utf8ByteSize

/-- The string `snprintf` writes for `"%s %s %s"` in `match_profile_output`,
each `NULL` member replaced by `"Unknown"`. -/
def identifier (head : kanshi_head) : String :=
  head.make.getD "Unknown" ++ " " ++ head.model.getD "Unknown" ++ " " ++
    head.serial_number.getD "Unknown"

/-- The condition of the `assert` in `match_profile_output`, with
`sizeof(identifier) = 1024`. -/
def identifier_fits (head : kanshi_head) : Bool :=
  decide (1024 ≥ strlen (head.make.getD "Unknown") + strlen (head.model.getD "Unknown") +
    strlen (head.serial_number.getD "Unknown") + 3)

/-- The C `match_profile_output` (lines 26-40). `none`: the assertion fails, or
`strcmp` is reached with `head->name == NULL`. The three `strcmp` tests are
evaluated left to right and stop at the first that holds. -/
def match_profile_output (output : kanshi_profile_output) (head : kanshi_head) :
    Option Bool :=
  if identifier_fits head then
    if output.name = "*" then some true
    else
      match head.name with
      | none => none
      | some name => some (decide (output.name = name) || decide (output.name = identifier head))
  else none

/-- The inner `wl_list_for_each(head, &state->heads, link)` loop of
`match_profile` (lines 58-70); `i` is the index of the head at the front of
the list. The result is `output_matched` and the array. -/
def match_profile_heads (profile_output : ptr kanshi_profile_output) :
    List kanshi_head → Nat → matches_t → Option (Bool × matches_t)
  | [], _, matched => some (false, matched)
  | head :: rest, i, matched =>
    match matched[i]? with
    | none => none
    | some (some _) => match_profile_heads profile_output rest (i + 1) matched
    | some none =>
      match match_profile_output profile_output.val head with
      | none => none
      | some true => some (true, matched.set i (some profile_output))
      | some false => match_profile_heads profile_output rest (i + 1) matched

/-- The outer `wl_list_for_each(profile_output, &profile->outputs, link)` loop
of `match_profile` (lines 54-77); `k` is the position of the output at the
front of the list. -/
def match_profile_outputs (heads : List kanshi_head) :
    List kanshi_profile_output → Nat → matches_t → Option (Bool × matches_t)
  | [], _, matched => some (true, matched)
  | output :: rest, k, matched =>
    match match_profile_heads ⟨k, output⟩ heads 0 matched with
    | none => none
    | some (false, matches1) => some (false, matches1)
    | some (true, matches1) => match_profile_outputs heads rest (k + 1) matches1

/-- The C `match_profile` (lines 42-78). The `memset` clears all `HEADS_MAX` entries. -/
def match_profile (state : kanshi_state) (profile : kanshi_profile) (matched : matches_t) :
    Option (Bool × matches_t) :=
  if profile.outputs.length ≠ state.heads.length then some (false, matched)
  else match_profile_outputs state.heads profile.outputs 0 (List.replicate HEADS_MAX none)

/-- The loop of `match` (lines 83-87) over the profiles from position `j` on. -/
def match_profiles (state : kanshi_state) :
    List kanshi_profile → Nat → matches_t → Option (Option (ptr kanshi_profile) × matches_t)
  | [], _, matched => some (none, matched)
  | profile :: rest, j, matched =>
    match match_profile state profile matched with
    | none => none
    | some (true, matches1) => some (some ⟨j, profile⟩, matches1)
    | some (false, matches1) => match_profiles state rest (j + 1) matches1

/-- The C function `match` (lines 80-89), which the spec calls `match_best`. -/
def match_best (state : kanshi_state) (matched : matches_t) :
    Option (Option (ptr kanshi_profile) × matches_t) :=
  match_profiles state state.config.profiles 0 matched

/-! ## Mode selector (`main.c`, lines 202-241) -/

/-- The value an `int` takes for the mathematical result `x` of an operation:
`x` itself when it is representable in 32 bits, wrapped around otherwise. -/
def wrap32 (x : Int) : Int := (x + 2147483648) % 4294967296 - 2147483648

/-- The C `abs` on `int`. -/
def abs32 (v : Int) : Int := wrap32 (if v < 0 then -v else v)

/-- The C `match_refresh` (lines 202-216); the result is the return value
and the new value of `*delta`. -/
def match_refresh (mode : kanshi_mode) (refresh : Int) (delta : Int) : Bool × Int :=
  let v := wrap32 (refresh - mode.refresh)
  let mode_delta := abs32 v
  if mode_delta < 50 ∧ mode_delta < delta then (true, mode_delta) else (false, delta)

/-- The `wl_list_for_each(mode, &head->modes, link)` loop of `match_mode`
(lines 224-238), with the locals `last_match` and `mode_delta`. -/
def match_mode_loop (width height refresh : Int) :
    List kanshi_mode → Option kanshi_mode → Int → Option kanshi_mode
  | [], last_match, _ => last_match
  | mode :: rest, last_match, mode_delta =>
    if mode.width ≠ width ∨ mode.height ≠ height then
      match_mode_loop width height refresh rest last_match mode_delta
    else if refresh ≠ 0 then
      match match_refresh mode refresh mode_delta with
      | (true, delta) => match_mode_loop width height refresh rest (some mode) delta
      | (false, delta) => match_mode_loop width height refresh rest last_match delta
    else
      match last_match with
      | none => match_mode_loop width height refresh rest (some mode) mode_delta
      | some last =>
        if mode.refresh > last.refresh then
          match_mode_loop width height refresh rest (some mode) mode_delta
        else match_mode_loop width height refresh rest last_match mode_delta

/-- The C `match_mode` (lines 218-241). -/
def match_mode (head : kanshi_head) (width height refresh : Int) : Option kanshi_mode :=
  match_mode_loop width height refresh head.modes none INT32_MAX

/-! ## Apply engine (`main.c`, lines 135-194, 243-330, 522-551) -/

/-- A completion callback together with its data (`kanshi_apply_done_func
callback, void *data`): the handle of the caller to answer, `none` for
`NULL`. -/
abbrev callback_t := Option Nat

/-- The C `struct kanshi_pending_profile` of `kanshi.h` (the member `state` left out:
there is one session). -/
structure kanshi_pending_profile where
  serial : Nat
  profile : ptr kanshi_profile
  callback : callback_t
deriving DecidableEq, Repr

/-- The `wl_fixed_t` sent with `set_scale`. The conversion
`wl_fixed_from_double` belongs to libwayland, so the value is kept as the
`double` it was converted from. -/
structure wl_fixed_t where
  from_double : double
deriving DecidableEq, Repr

/-- A `zwlr_output_configuration_head_v1`: what has been set on an enabled head
with `set_mode`, `set_position`, `set_scale`, `set_transform` and
`set_adaptive_sync`; `none` where the request was not sent. -/
structure zwlr_output_configuration_head_v1 where
  mode : Option Nat
  position : Option (Int × Int)
  scale : Option wl_fixed_t
  transform : Option Nat
  adaptive_sync : Option Bool
deriving DecidableEq, Repr

/-- The per-head instruction of a configuration: `disable_head`, or
`enable_head` with the properties set on the head. -/
inductive head_request where
  | disable_head (wlr_head : Nat)
  | enable_head (wlr_head : Nat) (config_head : zwlr_output_configuration_head_v1)
deriving DecidableEq, Repr

/-- A `zwlr_output_configuration_v1` as submitted: the serial it was created
with, the listener data, and the per-head instructions in the order sent. -/
structure zwlr_output_configuration_v1 where
  serial : Nat
  listener_data : kanshi_pending_profile
  heads : List head_request
deriving DecidableEq, Repr

/-- What the daemon has done so far that is visible outside the session state:
the configurations submitted with `zwlr_output_configuration_v1_apply`, the
commands handed to `exec_command`, the completion callbacks invoked (data and
`success`), all oldest first; and `runs`, a ghost counter of the entries into
`match_and_apply`, which is not a variable of the C program. -/
structure effects where
  applied : List zwlr_output_configuration_v1
  executed : List String
  done : List (Nat × Bool)
  runs : Nat
deriving DecidableEq, Repr

/-- The C statement `if (callback != NULL) callback(data, success);`. -/
def invoke (callback : callback_t) (success : Bool) (world : effects) : effects :=
  match callback with
  | none => world
  | some data => { world with done := world.done ++ [(data, success)] }

/-- The body of the loop of `apply_profile` for the head `head` matched to
`profile_output`, from `enabled` on (lines 277-320): the instruction sent, or
`none` for `goto error`. -/
def apply_profile_head (head : kanshi_head) (profile_output : kanshi_profile_output) :
    Option head_request :=
  let enabled := if profile_output.fields.enabled then profile_output.enabled else head.enabled
  if !enabled then some (head_request.disable_head head.wlr_head)
  else
    let config_head : zwlr_output_configuration_head_v1 := ⟨none, none, none, none, none⟩
    let with_mode : Option zwlr_output_configuration_head_v1 :=
      if profile_output.fields.mode then
        match match_mode head profile_output.mode.width profile_output.mode.height
            profile_output.mode.refresh with
        | none => none
        | some mode => some { config_head with mode := some mode.wlr_mode }
      else some config_head
    match with_mode with
    | none => none
    | some config_head =>
      let config_head :=
        if profile_output.fields.position then
          { config_head with
            position := some (profile_output.position_x, profile_output.position_y) }
        else config_head
      let config_head :=
        if profile_output.fields.scale then
          { config_head with scale := some ⟨profile_output.scale⟩ }
        else config_head
      let config_head :=
        if profile_output.fields.transform then
          { config_head with transform := some profile_output.transform }
        else config_head
      let config_head :=
        if profile_output.fields.adaptive_sync then
          { config_head with adaptive_sync := some profile_output.adaptive_sync }
        else config_head
      some (head_request.enable_head head.wlr_head config_head)

/-- The `wl_list_for_each(head, &state->heads, link)` loop of `apply_profile`
(lines 268-321); `i` is the index of the head at the front of the list.
`none`: `matches[i]` is read out of bounds or is `NULL` and dereferenced;
`some none`: `goto error`; otherwise the instructions sent, in order. -/
def apply_profile_heads : List kanshi_head → Nat → matches_t →
    Option (Option (List head_request))
  | [], _, _ => some (some [])
  | head :: rest, i, matched =>
    match matched[i]? with
    | none => none
    | some none => none
    | some (some profile_output) =>
      match apply_profile_head head profile_output.val with
      | none => some none
      | some request =>
        match apply_profile_heads rest (i + 1) matched with
        | none => none
        | some none => some none
        | some (some requests) => some (some (request :: requests))

/-- The C `apply_profile` (lines 243-330): the return value, the session state
and the effects afterwards. -/
def apply_profile (state : kanshi_state) (profile : ptr kanshi_profile) (matched : matches_t)
    (callback : callback_t) (world : effects) : Option (Bool × kanshi_state × effects) :=
  if state.pending_profile.map ptr.addr = some profile.addr ∨
      state.current_profile.map ptr.addr = some profile.addr then
    some (true, state, invoke callback true world)
  else
    let pending : kanshi_pending_profile :=
      { serial := state.serial, profile := profile, callback := callback }
    let state1 := { state with pending_profile := some profile }
    match apply_profile_heads state1.heads 0 matched with
    | none => none
    | some none => some (false, state1, world)
    | some (some heads) =>
      some (true, state1,
        { world with
          applied := world.applied ++
            [{ serial := state1.serial, listener_data := pending, heads := heads }] })

/-- The C `match_and_apply` (lines 522-541). `matched` is the initial content of
the local array `matches`, which C leaves indeterminate. -/
def match_and_apply (state : kanshi_state) (callback : callback_t) (matched : matches_t)
    (world : effects) : Option (Bool × kanshi_state × effects) :=
  let world1 := { world with runs := world.runs + 1 }
  if state.heads.length ≤ HEADS_MAX then
    let current : Option (Bool × matches_t) :=
      match state.current_profile with
      | none => some (false, matched)
      | some profile => match_profile state profile.val matched
    match current with
    | none => none
    | some (true, _) => some (true, state, invoke callback true world1)
    | some (false, matched1) =>
      match match_best state matched1 with
      | none => none
      | some (some profile, matched2) => apply_profile state profile matched2 callback world1
      | some (none, _) => some (false, state, world1)
  else none

/-- The C `kanshi_switch` (lines 543-551). `matched` is the initial content of
the local array `matches`. -/
def kanshi_switch (state : kanshi_state) (profile : ptr kanshi_profile)
    (callback : callback_t) (matched : matches_t) (world : effects) :
    Option (Bool × kanshi_state × effects) :=
  match match_profile state profile.val matched with
  | none => none
  | some (false, _) => some (false, state, world)
  | some (true, matched1) => apply_profile state profile matched1 callback world

/-- The statement `if (pending->profile == state->pending_profile)
state->pending_profile = NULL;` of the three outcome handlers. -/
def clear_pending (pending : kanshi_pending_profile) (state : kanshi_state) : kanshi_state :=
  if some pending.profile.addr = state.pending_profile.map ptr.addr then
    { state with pending_profile := none }
  else state

/-- The C `config_handle_succeeded` (lines 135-158). -/
def config_handle_succeeded (pending : kanshi_pending_profile) (state : kanshi_state)
    (world : effects) : kanshi_state × effects :=
  let world1 := { world with executed := world.executed ++ pending.profile.val.commands }
  let state1 := { state with current_profile := some pending.profile }
  (clear_pending pending state1, invoke pending.callback true world1)

/-- The C `config_handle_failed` (lines 160-173). -/
def config_handle_failed (pending : kanshi_pending_profile) (state : kanshi_state)
    (world : effects) : kanshi_state × effects :=
  (clear_pending pending state, invoke pending.callback false world)

/-- The C `config_handle_cancelled` (lines 175-194). `matched` is the initial
content of the local array of the `match_and_apply` it may call. -/
def config_handle_cancelled (pending : kanshi_pending_profile) (state : kanshi_state)
    (matched : matches_t) (world : effects) : Option (kanshi_state × effects) :=
  let state1 := clear_pending pending state
  let retried : Option (kanshi_state × effects) :=
    if pending.serial ≠ state1.serial then
      match match_and_apply state1 none matched world with
      | none => none
      | some (_, state2, world2) => some (state2, world2)
    else some (state1, world)
  match retried with
  | none => none
  | some (state2, world2) => some (state2, invoke pending.callback false world2)

/-! ## Session events (`main.c`, lines 553-558 and 643-655; `ipc.c`, lines 23-67) -/

/-- The C `output_manager_handle_done` (lines 553-558). -/
def output_manager_handle_done (state : kanshi_state) (serial : Nat) (matched : matches_t)
    (world : effects) : Option (kanshi_state × effects) :=
  match match_and_apply { state with serial := serial } none matched world with
  | none => none
  | some (_, state1, world1) => some (state1, world1)

/-- The C `destroy_config` (lines 622-641): it frees the store and every profile
in it. Outside the store the daemon holds pointers to profiles in
`current_profile`, in `pending_profile` and in the listener data of each
configuration it has submitted (`pending->profile`, set by `apply_profile`,
line 258), all of them into the store in use when they were set. So once the
store is freed the listener data of every configuration submitted so far
points to a freed profile. The result is the number of these
configurations: the positions below it in `world.applied` hold a dangling
pointer. -/
def destroy_config (world : effects) : Nat :=
  world.applied.length

/-- The C `kanshi_reload_config` (lines 643-655). `config` is what `read_config`
returns, `none` for `NULL`; the parser behind it is not among the sources.
`freed` is the number of submitted configurations whose listener data
already points to a freed profile; the last component of the result is that
number afterwards. `read_config` allocates the new store while the old one is
still allocated, so no profile of the new store has the address of a profile
of the old one. Here the address of a profile is its position in the store
in use, which says nothing about a profile of another store: a pointer into
the freed store is therefore never read or compared (`deliver`), and
`current_profile` and `pending_profile`, which may point into it, are set to
`NULL` as in lines 651-652. -/
def kanshi_reload_config (state : kanshi_state) (config : Option kanshi_config)
    (callback : callback_t) (matched : matches_t) (world : effects) (freed : Nat) :
    Option (Bool × kanshi_state × effects × Nat) :=
  match config with
  | none => some (false, state, world, freed)
  | some config =>
    let freed1 := destroy_config world
    match match_and_apply
        { state with config := config, pending_profile := none, current_profile := none }
        callback matched world with
    | none => none
    | some (b, state1, world1) => some (b, state1, world1, freed1)

/-- What a call of the control interface is answered with: the empty reply of
`varlink_call_reply`, one of the three errors of the interface, or the
invalid-parameter error. -/
inductive ipc_reply where
  | ok
  | ProfileNotFound
  | ProfileNotMatched
  | ProfileNotApplied
  | invalid_parameter
deriving DecidableEq, Repr

/-- The daemon between two events: the session state, the effects so far, the
positions in `world.applied` of the configurations whose outcome has
arrived, the replies sent by `handle_reload` and `handle_switch`
themselves (call and reply), oldest first, and the number of submitted
configurations whose listener data points to a profile that
`destroy_config` has freed (the positions below `freed` in
`world.applied`). -/
structure session where
  state : kanshi_state
  world : effects
  answered : List Nat
  replied : List (Nat × ipc_reply)
  freed : Nat
deriving DecidableEq, Repr

/-- The C `handle_reload` (`ipc.c`, lines 32-39) for the call `call`, with the
completion `apply_profile_done` on that call. -/
def handle_reload (call : Nat) (config : Option kanshi_config) (matched : matches_t)
    (s : session) : Option session :=
  match kanshi_reload_config s.state config (some call) matched s.world s.freed with
  | none => none
  | some (false, state1, world1, freed1) =>
    some { s with state := state1, world := world1, freed := freed1,
                  replied := s.replied ++ [(call, ipc_reply.ProfileNotMatched)] }
  | some (true, state1, world1, freed1) =>
    some { s with state := state1, world := world1, freed := freed1 }

/-- The search loop of `handle_switch` (`ipc.c`, lines 50-57): the first profile of
the store with the given name; `j` is the position of the profile at the
front of the list. -/
def find_profile (profile_name : String) : List kanshi_profile → Nat →
    Option (ptr kanshi_profile)
  | [], _ => none
  | profile :: rest, j =>
    if profile.name = profile_name then some ⟨j, profile⟩
    else find_profile profile_name rest (j + 1)

/-- The C `handle_switch` (`ipc.c`, lines 41-67) for the call `call`;
`profile_name` is `none` when the parameter `profile` is missing. -/
def handle_switch (call : Nat) (profile_name : Option String) (matched : matches_t)
    (s : session) : Option session :=
  match profile_name with
  | none => some { s with replied := s.replied ++ [(call, ipc_reply.invalid_parameter)] }
  | some profile_name =>
    match find_profile profile_name s.state.config.profiles 0 with
    | none => some { s with replied := s.replied ++ [(call, ipc_reply.ProfileNotFound)] }
    | some profile =>
      match kanshi_switch s.state profile (some call) matched s.world with
      | none => none
      | some (false, state1, world1) =>
        some { s with state := state1, world := world1,
                      replied := s.replied ++ [(call, ipc_reply.ProfileNotMatched)] }
      | some (true, state1, world1) => some { s with state := state1, world := world1 }

/-- The three outcome events of `config_listener` (lines 196-200). -/
inductive outcome where
  | succeeded
  | failed
  | cancelled
deriving DecidableEq, Repr

/-- The delivery of the outcome `o` of the configuration at position `i` of
`world.applied` to the handler `config_listener` names for it, with the
listener data of that configuration. It is not defined (`none`) for a
configuration that has had its outcome or was never submitted: the compositor
sends one outcome per configuration. Nor is it defined for a configuration
submitted before the store was last freed: each of the three handlers reads
`pending->profile->name` (lines 149, 164-165, 180-181), and
`config_handle_succeeded` the list `profile->commands` (line 144), through
a pointer to a freed profile, which C leaves undefined. -/
def deliver (i : Nat) (o : outcome) (matched : matches_t) (s : session) : Option session :=
  if i ∈ s.answered then none
  else if i < s.freed then none
  else
    match s.world.applied[i]? with
    | none => none
    | some configuration =>
      match o with
      | outcome.succeeded =>
        let r := config_handle_succeeded configuration.listener_data s.state s.world
        some { s with state := r.1, world := r.2, answered := i :: s.answered }
      | outcome.failed =>
        let r := config_handle_failed configuration.listener_data s.state s.world
        some { s with state := r.1, world := r.2, answered := i :: s.answered }
      | outcome.cancelled =>
        match config_handle_cancelled configuration.listener_data s.state matched s.world with
        | none => none
        | some r => some { s with state := r.1, world := r.2, answered := i :: s.answered }

/-- What the single control thread reacts to: an outcome of a submitted
configuration, a `done` of the output manager, the head and mode
notifications before it (taken together: they leave some list of heads), and
the two calls of the control interface. `matched` is the initial content of
the local array `matches` of the `match_and_apply` or `kanshi_switch` the
event leads to. -/
inductive event where
  | outcome (i : Nat) (o : outcome) (matched : matches_t)
  | done (serial : Nat) (matched : matches_t)
  | topology (heads : List kanshi_head)
  | reload (call : Nat) (config : Option kanshi_config) (matched : matches_t)
  | switch (call : Nat) (profile_name : Option String) (matched : matches_t)

/-- The reaction of the daemon to one event; `none` when the process aborts or
the event cannot occur. -/
def step (s : session) : event → Option session
  | event.outcome i o matched => deliver i o matched s
  | event.done serial matched =>
    match output_manager_handle_done s.state serial matched s.world with
    | none => none
    | some r => some { s with state := r.1, world := r.2 }
  | event.topology heads => some { s with state := { s.state with heads := heads } }
  | event.reload call config matched => handle_reload call config matched s
  | event.switch call profile_name matched => handle_switch call profile_name matched s

/-- The reaction of the daemon to a sequence of events, one after the other. -/
def run : session → List event → Option session
  | s, [] => some s
  | s, e :: es =>
    match step s e with
    | none => none
    | some s1 => run s1 es

/-- The calls that take a completion callback: `kanshi_switch` to a profile,
`match_and_apply`, and `kanshi_reload_config` with what `read_config`
returns. -/
inductive request where
  | switch (profile : ptr kanshi_profile)
  | match_and_apply
  | reload (config : Option kanshi_config)

/-- Eligibility of a head for a profile output, in the words of the spec: the
selector is the wildcard, or equals the head's name, or equals the head's
identity string. -/
def eligible (output : kanshi_profile_output) (head : kanshi_head) : Bool :=
  decide (output.name = "*") || decide (some output.name = head.name) ||
    decide (output.name = identifier head)

/-- The precondition under which `match_profile_output` returns: the head has
a name and its identity string fits the buffer. -/
def head_ok (head : kanshi_head) : Bool :=
  head.name.isSome && identifier_fits head

/-- The loop invariant of `match_profile` once the outputs at positions below
`k` have each claimed a head: the claimed entries are in one-to-one
correspondence with those outputs, and each sits at an eligible head. -/
structure matching_inv (heads : List kanshi_head) (outs : List kanshi_profile_output)
    (k : Nat) (m : matches_t) : Prop where
  len : m.length = HEADS_MAX
  count : m.countP Option.isSome = k
  sound : ∀ (i : Nat) (p : ptr kanshi_profile_output), m[i]? = some (some p) →
    p.addr < k ∧ outs[p.addr]? = some p.val ∧
      ∃ h, heads[i]? = some h ∧ eligible p.val h = true
  inj : ∀ (i i' : Nat) (p p' : ptr kanshi_profile_output), m[i]? = some (some p) → m[i']? = some (some p') →
    p.addr = p'.addr → i = i'
  surj : ∀ k', k' < k → ∃ (i : Nat) (p : ptr kanshi_profile_output), m[i]? = some (some p) ∧ p.addr = k'

/-- The state of the loop of `match_mode` for a non-zero refresh target:
nothing kept and a bound of at least 50, or a kept mode within 50 of the
target whose distance is the bound. -/
def refresh_state (refresh : Int) (last_match : Option kanshi_mode) (delta : Int) : Prop :=
  match last_match with
  | none => 50 ≤ delta
  | some l => delta = |l.refresh - refresh| ∧ |l.refresh - refresh| < 50

/-- The order in which the comment in `match_profile` (lines 51-52) says the
outputs of a profile are stored, "Wildcards are stored at the end of the
list": every wildcard output comes after every other output. The parser that
stores them is not among the sources. -/
def wildcards_last (outputs : List kanshi_profile_output) : Prop :=
  ∀ (j k : Nat) (d c : kanshi_profile_output), outputs[j]? = some d → outputs[k]? = some c →
    d.name ≠ "*" → c.name = "*" → j < k

/-! ## Reference matcher, written from the spec (section 4.2) -/

/-- Spec: "scan heads in model order and pick the first head not yet claimed
whose name equals the constraint's selector, or whose derived identity string
equals the selector, or whose selector is the wildcard". Entry `i` of
`claimed` is the position of the constraint that claimed head `i`, if any. -/
def first_fit_pick (heads : List kanshi_head) (claimed : List (Option Nat))
    (c : kanshi_profile_output) : Option Nat :=
  (heads.zip claimed).findIdx? fun hc => hc.2.isNone && eligible c hc.1

/-- Spec: "for each constraint in profile order ... If a constraint finds no
unclaimed eligible head, the whole profile fails to match (no
backtracking)". `k` is the position of the first constraint of the list. -/
def first_fit_from (heads : List kanshi_head) :
    List kanshi_profile_output → Nat → List (Option Nat) → Option (List (Option Nat))
  | [], _, claimed => some claimed
  | c :: rest, k, claimed =>
    match first_fit_pick heads claimed c with
    | none => none
    | some i => first_fit_from heads rest (k + 1) (claimed.set i (some k))

/-- Spec: "fails immediately if the number of constraints differs from the
number of heads", otherwise the greedy pass starting with no head claimed. -/
def first_fit (heads : List kanshi_head) (outputs : List kanshi_profile_output) :
    Option (List (Option Nat)) :=
  if outputs.length ≠ heads.length then none
  else first_fit_from heads outputs 0 (List.replicate heads.length none)

/-- The assignment an array of matches stands for: for each of the first `n`
heads the position of the profile output it points to. -/
def assignment_of (n : Nat) (m : matches_t) : List (Option Nat) :=
  (m.take n).map (Option.map ptr.addr)

/-! ## Apply engine, in the words of the spec (section 4.4) -/

/-- The per-head instruction in the words of the spec (section 4.4, step 4, and
section 3): the enabled state is the constraint's when it marks the field
present and the head's otherwise; a head resolved to disabled gets "disable"
and nothing else; an enabled head gets exactly the fields the constraint
marks present, the mode being the one the mode selector resolves. -/
def head_instruction (head : kanshi_head) (c : kanshi_profile_output) : head_request :=
  let enabled := if c.fields.enabled then c.enabled else head.enabled
  if enabled then
    head_request.enable_head head.wlr_head
      { mode :=
          if c.fields.mode then
            (match_mode head c.mode.width c.mode.height c.mode.refresh).map kanshi_mode.wlr_mode
          else none
        position := if c.fields.position then some (c.position_x, c.position_y) else none
        scale := if c.fields.scale then some ⟨c.scale⟩ else none
        transform := if c.fields.transform then some c.transform else none
        adaptive_sync := if c.fields.adaptive_sync then some c.adaptive_sync else none }
  else head_request.disable_head head.wlr_head

/-- The enabled state the apply engine resolves for a head and its constraint. -/
def resolved_enabled (head : kanshi_head) (c : kanshi_profile_output) : Bool :=
  if c.fields.enabled then c.enabled else head.enabled

/-- The completion calls a callback receives when invoked once with `success`:
none for `NULL`. -/
def completion_calls (callback : callback_t) (success : Bool) : List (Nat × Bool) :=
  match callback with
  | none => []
  | some data => [(data, success)]

/-! ## Completion callbacks and replies -/

/-- The preconditions of the matcher on the heads: each has a name
(`head_ok`) and there are at most `HEADS_MAX` of them. -/
def heads_ok (heads : List kanshi_head) : Bool :=
  heads.all head_ok && decide (heads.length ≤ HEADS_MAX)

/-- The events to which C defines the reaction of the daemon in the session
`s`, the heads being within the preconditions of the matcher: any `done`,
any call of the control interface, head notifications that leave heads
within those preconditions, and an outcome for a submitted configuration
that has had none and whose listener data does not point to a freed
profile. -/
def enabled (s : session) : event → Bool
  | event.outcome i _ _ =>
    decide (i ∉ s.answered) && decide (s.freed ≤ i) && decide (i < s.world.applied.length)
  | event.topology heads => heads_ok heads
  | _ => true

/-- A head that has only a name, is enabled and has the given modes. -/
def head_named (wlr_head : Nat) (name : String) (modes : List kanshi_mode) : kanshi_head :=
  { wlr_head := wlr_head, name := some name, make := none, model := none,
    serial_number := none, modes := modes, enabled := true }

/-- No field marked present. -/
def no_fields : kanshi_output_fields :=
  { enabled := false, mode := false, position := false, scale := false,
    transform := false, adaptive_sync := false }

/-- A profile output with the given selector and no field marked present. -/
def output_named (name : String) : kanshi_profile_output :=
  { name := name, fields := no_fields, enabled := false, mode := ⟨0, 0, 0⟩,
    position_x := 0, position_y := 0, scale := ⟨0⟩, transform := 0, adaptive_sync := false }

/-- The profile `laptop-only` of the end-to-end scenario of the spec. -/
def laptop_only : kanshi_profile :=
  { name := "laptop-only",
    outputs := [{ output_named "eDP-1" with fields := { no_fields with enabled := true },
                                            enabled := true },
                { output_named "DP-1" with fields := { no_fields with enabled := true },
                                           enabled := false }],
    commands := [] }

/-- The profile `docked` of the end-to-end scenario of the spec. -/
def docked : kanshi_profile :=
  { name := "docked",
    outputs := [{ output_named "eDP-1" with fields := { no_fields with enabled := true },
                                            enabled := true },
                { output_named "DP-1" with
                    fields := { no_fields with enabled := true, position := true },
                    enabled := true, position_x := 1920, position_y := 0 }],
    commands := [] }

/-- The session of the end-to-end scenario: heads `eDP-1` and `DP-1`, profile
`laptop-only` declared before `docked`, nothing applied yet. -/
def scenario_state : kanshi_state :=
  { config := ⟨[laptop_only, docked]⟩,
    heads := [head_named 1 "eDP-1" [], head_named 2 "DP-1" []],
    serial := 1, current_profile := none, pending_profile := none }

/-- The array `match_profile` leaves for `laptop-only` in the scenario. -/
def scenario_matches : matches_t :=
  (laptop_only.outputs.enum.map fun kc => some ⟨kc.1, kc.2⟩) ++ List.replicate 62 none

/-- The scenario with the two heads in the other model order. -/
def scenario_state_rev : kanshi_state :=
  { scenario_state with heads := [head_named 2 "DP-1" [], head_named 1 "eDP-1" []] }

/-- The array `match_profile` leaves for `laptop-only` with the heads in the
other order. -/
def scenario_matches_rev : matches_t :=
  (laptop_only.outputs.enum.reverse.map fun kc => some ⟨kc.1, kc.2⟩) ++ List.replicate 62 none

/-- The profile `[exact("A"), wildcard]` of the spec's testable properties. -/
def exact_then_wildcard : kanshi_profile :=
  { name := "exact-then-wildcard", outputs := [output_named "A", output_named "*"],
    commands := [] }

/-- A session whose heads are named `A` and `B`, in that model order. -/
def heads_a_b : kanshi_state :=
  { config := ⟨[exact_then_wildcard]⟩,
    heads := [head_named 1 "A" [], head_named 2 "B" []],
    serial := 1, current_profile := none, pending_profile := none }

/-- A session whose heads are named `B` and `A`, in that model order. -/
def heads_b_a : kanshi_state :=
  { heads_a_b with heads := [head_named 2 "B" [], head_named 1 "A" []] }

/-- The array with its first two entries set to the given outputs of
`exact_then_wildcard`. -/
def two_matches (p0 p1 : ptr kanshi_profile_output) : matches_t :=
  [some p0, some p1] ++ List.replicate 62 none

/-- The head of the spec's identity example: make absent, model `X`, serial
number absent. -/
def head_model_x : kanshi_head :=
  { wlr_head := 1, name := some "DP-3", make := none, model := some "X",
    serial_number := none, modes := [], enabled := true }

/-- A mode of 1920x1080 with the given refresh rate in mHz. -/
def mode_1080 (wlr_mode : Nat) (refresh : Int) : kanshi_mode :=
  { wlr_mode := wlr_mode, width := 1920, height := 1080, refresh := refresh,
    preferred := false }

/-- A head with the three modes of the spec's mode-selection example. -/
def head_three_modes : kanshi_head :=
  head_named 1 "DP-1" [mode_1080 1 59940, mode_1080 2 60000, mode_1080 3 74970]

/-- A head whose only mode is 1920x1080 at 59940 mHz. -/
def head_one_mode : kanshi_head := head_named 1 "DP-1" [mode_1080 1 59940]

/-- Nothing done yet. -/
def no_effects : effects := { applied := [], executed := [], done := [], runs := 0 }

/-- A profile asking the head `eDP-1` for the mode 1280x720. -/
def wants_720p : kanshi_profile :=
  { name := "small",
    outputs := [{ output_named "eDP-1" with
                    fields := { no_fields with mode := true },
                    mode := ⟨1280, 720, 0⟩ }],
    commands := [] }

/-- A session with the single head `eDP-1`, enabled, whose only mode is
1920x1080 at 60000 mHz; the profile `wants_720p` is declared and nothing is
applied or pending. -/
def state_1080_only : kanshi_state :=
  { config := ⟨[wants_720p]⟩,
    heads := [head_named 1 "eDP-1" [mode_1080 1 60000]],
    serial := 1, current_profile := none, pending_profile := none }

/-- A profile for the heads `eDP-1` and `DP-1`: the first constraint marks
mode, position and scale present and leaves the enabled state alone; the
second disables its head and carries a mode no head has. -/
def desk : kanshi_profile :=
  { name := "desk",
    outputs := [{ output_named "eDP-1" with
                    fields := { no_fields with mode := true, position := true, scale := true },
                    mode := ⟨1920, 1080, 0⟩, position_x := 0, position_y := 1080,
                    scale := ⟨2⟩ },
                { output_named "DP-1" with
                    fields := { no_fields with enabled := true, mode := true },
                    enabled := false, mode := ⟨9999, 9999, 0⟩ }],
    commands := ["notify"] }

/-- A session with the heads `eDP-1` (two modes) and `DP-1`, both enabled, at
serial 5, with the profile `desk` declared and nothing applied or pending. -/
def desk_state : kanshi_state :=
  { config := ⟨[desk]⟩,
    heads := [head_named 1 "eDP-1" [mode_1080 1 59940, mode_1080 2 60000],
              head_named 2 "DP-1" [mode_1080 3 60000]],
    serial := 5, current_profile := none, pending_profile := none }

/-- The array `match_profile` leaves for `desk` in `desk_state`. -/
def desk_matches : matches_t :=
  (desk.outputs.enum.map fun kc => some ⟨kc.1, kc.2⟩) ++ List.replicate 62 none

/-- The configuration `apply_profile` submits for `desk` in `desk_state` when
called with the completion `9`. -/
def desk_configuration : zwlr_output_configuration_v1 :=
  { serial := 5,
    listener_data := { serial := 5, profile := ⟨0, desk⟩, callback := some 9 },
    heads := [head_request.enable_head 1
                { mode := some 2, position := some (0, 1080), scale := some ⟨⟨2⟩⟩,
                  transform := none, adaptive_sync := none },
              head_request.disable_head 2] }

/-- The instructions `apply_profile` sends for `laptop-only` in the scenario. -/
def laptop_only_requests : List head_request :=
  [head_request.enable_head 1 ⟨none, none, none, none, none⟩, head_request.disable_head 2]

/-- The record of the transaction submitted for `laptop-only` at serial 1 on
behalf of the completion `7`. -/
def first_pending : kanshi_pending_profile :=
  { serial := 1, profile := ⟨0, laptop_only⟩, callback := some 7 }

/-- The scenario once that transaction is in flight and the serial has
advanced to 2. -/
def raced_state : kanshi_state :=
  { scenario_state with serial := 2, pending_profile := some ⟨0, laptop_only⟩ }

/-- The effects once that transaction has been submitted by one run of
`match_and_apply`. -/
def raced_world : effects :=
  { applied := [{ serial := 1, listener_data := first_pending, heads := laptop_only_requests }],
    executed := [], done := [], runs := 1 }

/-- The record of the transaction the retry submits at serial 2. -/
def retry_pending : kanshi_pending_profile :=
  { serial := 2, profile := ⟨0, laptop_only⟩, callback := none }

/-- The configuration the retry submits at serial 2. -/
def retry_configuration : zwlr_output_configuration_v1 :=
  { serial := 2, listener_data := retry_pending, heads := laptop_only_requests }

/-- The effects after the cancellation of the first transaction: the retry has
run and submitted once, and the completion `7` has been answered with
failure. -/
def retried_world : effects :=
  { applied := raced_world.applied ++ [retry_configuration],
    executed := [], done := [(7, false)], runs := 2 }

/-- The scenario once `docked`, the profile declared second, has been applied. -/
def docked_state : kanshi_state :=
  { scenario_state with current_profile := some ⟨1, docked⟩ }

/-- A profile with a single constraint, which cannot match two heads. -/
def single_output : kanshi_profile :=
  { name := "single", outputs := [output_named "eDP-1"], commands := [] }

/-- The constraints of a profile declared as `[wildcard, exact("A")]`. -/
def wildcard_then_exact : List kanshi_profile_output :=
  [output_named "*", output_named "A"]

/-- The profile the parser stores for the declaration `wildcard_then_exact`. -/
def stored_wildcard_then_exact : kanshi_profile :=
  { name := "wildcard-then-exact", outputs := store_outputs wildcard_then_exact,
    commands := [] }

/-- A head with two modes of 1920x1080 tied at the highest refresh rate, 60000
mHz, followed by a slower one; the tied modes differ in their handle. -/
def head_tied_modes : kanshi_head :=
  head_named 1 "DP-1" [mode_1080 1 60000, mode_1080 2 60000, mode_1080 3 59940]

/-- The daemon in the end-to-end scenario before any event. -/
def scenario_session : session :=
  { state := scenario_state, world := no_effects, answered := [], replied := [],
    freed := 0 }

/-- A store with the profile `docked` only, as `read_config` returns it on a
reload. -/
def reloaded_config : kanshi_config :=
  ⟨[docked]⟩

/-- The instructions `apply_profile` sends for `docked` in the scenario. -/
def docked_requests : List head_request :=
  [head_request.enable_head 1 ⟨none, none, none, none, none⟩,
   head_request.enable_head 2 ⟨none, some (1920, 0), none, none, none⟩]

/-- The configuration the switch to `docked` submits for the call `7`. -/
def docked_configuration : zwlr_output_configuration_v1 :=
  { serial := 1, listener_data := { serial := 1, profile := ⟨1, docked⟩, callback := some 7 },
    heads := docked_requests }

/-- The effects of the switch to `docked` made for the call `7`. -/
def switched_world : effects :=
  { applied := [docked_configuration], executed := [], done := [], runs := 0 }

/-- The session state after the switch to `docked`. -/
def switched_state : kanshi_state :=
  { scenario_state with pending_profile := some ⟨1, docked⟩ }

/-- The configuration the reload submits for the call `8`: `docked` is the
first profile of the new store. -/
def reloaded_configuration : zwlr_output_configuration_v1 :=
  { serial := 2, listener_data := { serial := 2, profile := ⟨0, docked⟩, callback := some 8 },
    heads := docked_requests }

/-- The daemon after the events of `answered_session` and the reload for the
call `8`: the two configurations submitted before it point to freed
profiles, the third awaits its outcome. -/
def reloaded_session : session :=
  { state := { config := reloaded_config, heads := scenario_state.heads, serial := 2,
               current_profile := none, pending_profile := some ⟨0, docked⟩ },
    world := { applied := [docked_configuration, retry_configuration, reloaded_configuration],
               executed := [], done := [(7, true)], runs := 2 },
    answered := [0], replied := [], freed := 2 }

/-- A value returned by `match_profile_output` is the eligibility of the head. -/
theorem match_profile_output_some {output : kanshi_profile_output} {head : kanshi_head}
    {b : Bool} (h : match_profile_output output head = some b) : b = eligible output head := by
  unfold match_profile_output at h
  unfold eligible
  split at h
  · split at h
    · rename_i hs
      simp at h
      subst h
      simp [hs]
    · rename_i hs
      cases hn : head.name with
      | none => simp [hn] at h
      | some name =>
        simp [hn] at h
        simp [hs, ← h]
  · simp at h

/-- For a head with a name and an identity that fits, `match_profile_output`
returns the eligibility of the head. -/
theorem match_profile_output_ok (output : kanshi_profile_output) {head : kanshi_head}
    (h : head_ok head = true) :
    match_profile_output output head = some (eligible output head) := by
  unfold head_ok at h
  simp only [Bool.and_eq_true] at h
  obtain ⟨hn, hf⟩ := h
  cases hr : match_profile_output output head with
  | some b => rw [match_profile_output_some hr]
  | none =>
    exfalso
    unfold match_profile_output at hr
    rw [if_pos hf] at hr
    split at hr
    · simp at hr
    · cases hn2 : head.name with
      | none => simp [hn2] at hn
      | some name => simp [hn2] at hr

/-- What the scan of the heads by `match_profile_heads` returns: on failure
the array is unchanged and no head is both unclaimed and eligible; on success
the first head that is both has been claimed. -/
theorem match_profile_heads_spec (p : ptr kanshi_profile_output) :
    ∀ (hs : List kanshi_head) (i : Nat) (m : matches_t) (b : Bool) (m' : matches_t),
      match_profile_heads p hs i m = some (b, m') →
      (b = false → m' = m ∧
        ∀ j h, hs[j]? = some h → ¬ (m[i + j]? = some none ∧ eligible p.val h = true)) ∧
      (b = true → ∃ j h, hs[j]? = some h ∧ m[i + j]? = some none ∧ eligible p.val h = true ∧
        m' = m.set (i + j) (some p) ∧
        ∀ j' h', j' < j → hs[j']? = some h' →
          ¬ (m[i + j']? = some none ∧ eligible p.val h' = true)) := by
  intro hs
  induction hs with
  | nil =>
    intro i m b m' h
    simp [match_profile_heads] at h
    obtain ⟨rfl, rfl⟩ := h
    simp
  | cons head rest ih =>
    intro i m b m' h
    rw [match_profile_heads] at h
    cases hmi : m[i]? with
    | none => simp [hmi] at h
    | some x =>
      cases x with
      | some q =>
        simp only [hmi] at h
        obtain ⟨ih1, ih2⟩ := ih (i + 1) m b m' h
        constructor
        · intro hb
          obtain ⟨e, hall⟩ := ih1 hb
          refine ⟨e, ?_⟩
          intro j h0 hj
          cases j with
          | zero => simp [hmi]
          | succ j =>
            have e2 : i + (j + 1) = i + 1 + j := by omega
            rw [e2]
            exact hall j h0 (by simpa using hj)
        · intro hb
          obtain ⟨j, h0, hj, hm, he, hset, hmin⟩ := ih2 hb
          have e2 : i + (j + 1) = i + 1 + j := by omega
          refine ⟨j + 1, h0, by simpa using hj, by rw [e2]; exact hm, he, by rw [e2]; exact hset, ?_⟩
          intro j' h' hlt hj'
          cases j' with
          | zero => simp [hmi]
          | succ j' =>
            have e3 : i + (j' + 1) = i + 1 + j' := by omega
            rw [e3]
            exact hmin j' h' (by omega) (by simpa using hj')
      | none =>
        simp only [hmi] at h
        cases hmo : match_profile_output p.val head with
        | none => simp [hmo] at h
        | some r =>
          have hel := match_profile_output_some hmo
          cases r with
          | true =>
            simp only [hmo, Option.some.injEq, Prod.mk.injEq] at h
            obtain ⟨rfl, rfl⟩ := h
            constructor
            · intro hb; simp at hb
            · intro _
              refine ⟨0, head, by simp, by simpa using hmi, hel.symm, by simp, ?_⟩
              intro j' h' hlt
              omega
          | false =>
            simp only [hmo] at h
            obtain ⟨ih1, ih2⟩ := ih (i + 1) m b m' h
            constructor
            · intro hb
              obtain ⟨e, hall⟩ := ih1 hb
              refine ⟨e, ?_⟩
              intro j h0 hj
              cases j with
              | zero =>
                simp only [List.getElem?_cons_zero, Option.some.injEq] at hj
                subst hj
                simp [← hel]
              | succ j =>
                have e2 : i + (j + 1) = i + 1 + j := by omega
                rw [e2]
                exact hall j h0 (by simpa using hj)
            · intro hb
              obtain ⟨j, h0, hj, hm, he, hset, hmin⟩ := ih2 hb
              have e2 : i + (j + 1) = i + 1 + j := by omega
              refine ⟨j + 1, h0, by simpa using hj, by rw [e2]; exact hm, he,
                by rw [e2]; exact hset, ?_⟩
              intro j' h' hlt hj'
              cases j' with
              | zero =>
                simp only [List.getElem?_cons_zero, Option.some.injEq] at hj'
                subst hj'
                simp [← hel]
              | succ j' =>
                have e3 : i + (j' + 1) = i + 1 + j' := by omega
                rw [e3]
                exact hmin j' h' (by omega) (by simpa using hj')

/-- The scan of the heads returns when every head has a name and an identity
string that fits, and the array has an entry for every head. -/
theorem match_profile_heads_total (p : ptr kanshi_profile_output) :
    ∀ (hs : List kanshi_head) (i : Nat) (m : matches_t),
      (∀ h ∈ hs, head_ok h = true) → i + hs.length ≤ m.length →
      ∃ r, match_profile_heads p hs i m = some r := by
  intro hs
  induction hs with
  | nil => intro i m _ _; exact ⟨_, rfl⟩
  | cons head rest ih =>
    intro i m hok hlen
    simp only [List.length_cons] at hlen
    have hi : i < m.length := by omega
    have hrest := ih (i + 1) m (fun h hh => hok h (List.mem_cons_of_mem _ hh)) (by omega)
    rw [match_profile_heads, List.getElem?_eq_getElem hi]
    cases m[i] with
    | some q => exact hrest
    | none =>
      simp only [match_profile_output_ok p.val (hok head (List.mem_cons_self _ _))]
      cases eligible p.val head with
      | true => exact ⟨_, rfl⟩
      | false => exact hrest

/-- The invariant holds for the cleared array before any output is processed. -/
theorem matching_inv_init (heads : List kanshi_head) (outs : List kanshi_profile_output) :
    matching_inv heads outs 0 (List.replicate HEADS_MAX none) := by
  refine ⟨by simp, ?_, ?_, ?_, ?_⟩
  · rw [List.countP_eq_zero]
    intro a ha
    rw [List.eq_of_mem_replicate ha]
    simp
  · intro i p h
    rw [List.getElem?_replicate] at h
    split at h <;> simp at h
  · intro i i' p p' h
    rw [List.getElem?_replicate] at h
    split at h <;> simp at h
  · intro k' hk
    omega

/-- The invariant is kept when the output at position `k` claims an unclaimed
head it is eligible for. -/
theorem matching_inv_step {heads : List kanshi_head} {outs : List kanshi_profile_output}
    {k : Nat} {m : matches_t} (inv : matching_inv heads outs k m)
    {c : kanshi_profile_output} (hc : outs[k]? = some c)
    {j : Nat} {h : kanshi_head} (hj : heads[j]? = some h) (hm : m[j]? = some none)
    (he : eligible c h = true) :
    matching_inv heads outs (k + 1) (m.set j (some ⟨k, c⟩)) := by
  have hjlt : j < m.length := by
    by_contra hcon
    rw [List.getElem?_eq_none (by omega)] at hm
    simp at hm
  have hmj : m[j] = none := by
    rw [List.getElem?_eq_getElem hjlt] at hm
    simpa using hm
  refine ⟨by simp [inv.len], ?_, ?_, ?_, ?_⟩
  · rw [List.countP_set _ _ _ _ hjlt, hmj, inv.count]
    simp
  · intro i p hp
    rw [List.getElem?_set] at hp
    split at hp
    · rename_i hij
      subst hij
      simp only [hjlt, if_true, Option.some.injEq] at hp
      subst hp
      exact ⟨by simp, hc, h, hj, he⟩
    · obtain ⟨h1, h2, h3⟩ := inv.sound i p hp
      exact ⟨by omega, h2, h3⟩
  · intro i i' p p' hp hp' hadd
    rw [List.getElem?_set] at hp hp'
    split at hp
    · rename_i hij
      split at hp'
      · rename_i hij'
        omega
      · simp only [hij ▸ hjlt, if_true, Option.some.injEq] at hp
        have := (inv.sound i' p' hp').1
        rw [← hadd, ← hp] at this
        simp at this
    · split at hp'
      · rename_i hij'
        simp only [hjlt, if_true, Option.some.injEq] at hp'
        have := (inv.sound i p hp).1
        rw [hadd, ← hp'] at this
        simp at this
      · exact inv.inj i i' p p' hp hp' hadd
  · intro k' hk'
    by_cases hk : k' = k
    · subst hk
      exact ⟨j, ⟨k', c⟩, by simp [List.getElem?_set, hjlt], rfl⟩
    · obtain ⟨i, p, hp, ha⟩ := inv.surj k' (by omega)
      refine ⟨i, p, ?_, ha⟩
      rw [List.getElem?_set]
      split
      · rename_i hij
        subst hij
        rw [hm] at hp
        simp at hp
      · exact hp

/-- Pigeonhole on an array of optional entries: when `n` entries are set and
every set entry sits below `n`, the first `n` entries are all set. -/
theorem all_claimed_of_count {α : Type} :
    ∀ (l : List (Option α)) (n : Nat), l.countP Option.isSome = n →
      (∀ (i : Nat) (x : α), l[i]? = some (some x) → i < n) →
      ∀ i, i < n → ∃ x, l[i]? = some (some x) := by
  intro l
  induction l with
  | nil =>
    intro n hc _ i hi
    simp at hc
    omega
  | cons a t ih =>
    intro n hc hlt i hi
    cases a with
    | some x =>
      simp only [List.countP_cons_of_pos, Option.isSome_some] at hc
      cases i with
      | zero => exact ⟨x, by simp⟩
      | succ i =>
        have := ih (n - 1) (by omega)
          (fun i' x' hx => by
            have := hlt (i' + 1) x' (by simpa using hx)
            omega) i (by omega)
        simpa using this
    | none =>
      simp only [Option.isSome_none, Bool.false_eq_true, not_false_eq_true,
        List.countP_cons_of_neg] at hc
      have hall := ih n hc (fun i' x' hx => by
        have := hlt (i' + 1) x' (by simpa using hx)
        omega)
      exfalso
      obtain ⟨x, hx⟩ := hall (n - 1) (by omega)
      have := hlt (n - 1 + 1) x (by simpa using hx)
      omega

/-- The outer loop of `match_profile` keeps the invariant: when it succeeds,
every output from position `k` on has claimed a head of its own. -/
theorem match_profile_outputs_inv {heads : List kanshi_head}
    {outs : List kanshi_profile_output} :
    ∀ (rest : List kanshi_profile_output) (k : Nat) (m m' : matches_t),
      outs.drop k = rest → matching_inv heads outs k m →
      match_profile_outputs heads rest k m = some (true, m') →
      matching_inv heads outs (k + rest.length) m' := by
  intro rest
  induction rest with
  | nil =>
    intro k m m' _ inv h
    simp only [match_profile_outputs, Option.some.injEq, Prod.mk.injEq, true_and] at h
    subst h
    simpa using inv
  | cons c rest ih =>
    intro k m m' hdrop inv h
    rw [match_profile_outputs] at h
    have hck : outs[k]? = some c := by
      have := List.getElem?_drop outs k 0
      rw [hdrop] at this
      simpa using this.symm
    have hdrop2 : outs.drop (k + 1) = rest := by
      have : (outs.drop k).drop 1 = rest := by rw [hdrop]; rfl
      rw [List.drop_drop] at this
      rw [← this]
    cases hres : match_profile_heads ⟨k, c⟩ heads 0 m with
    | none => simp [hres] at h
    | some r =>
      obtain ⟨b, m1⟩ := r
      cases b with
      | false => simp [hres] at h
      | true =>
        simp only [hres] at h
        obtain ⟨j, hd, hj, hm, he, hset, _⟩ :=
          (match_profile_heads_spec ⟨k, c⟩ heads 0 m true m1 hres).2 rfl
        simp only [Nat.zero_add] at hm hset
        have inv1 := matching_inv_step inv hck hj hm he
        rw [← hset] at inv1
        have := ih (k + 1) m1 m' hdrop2 inv1 h
        simp only [List.length_cons]
        rw [show k + (rest.length + 1) = k + 1 + rest.length by omega]
        exact this

/-- The outer loop of `match_profile` returns when every head has a name and
an identity string that fits, and the array has an entry for every head. -/
theorem match_profile_outputs_total {heads : List kanshi_head}
    (hok : ∀ h ∈ heads, head_ok h = true) :
    ∀ (rest : List kanshi_profile_output) (k : Nat) (m : matches_t),
      heads.length ≤ m.length → ∃ r, match_profile_outputs heads rest k m = some r := by
  intro rest
  induction rest with
  | nil => intro k m _; exact ⟨_, rfl⟩
  | cons c rest ih =>
    intro k m hlen
    rw [match_profile_outputs]
    obtain ⟨r, hr⟩ := match_profile_heads_total ⟨k, c⟩ heads 0 m hok (by omega)
    obtain ⟨b, m1⟩ := r
    rw [hr]
    cases b with
    | false => exact ⟨_, rfl⟩
    | true =>
      obtain ⟨j, hd, hj, hm, he, hset, _⟩ :=
        (match_profile_heads_spec ⟨k, c⟩ heads 0 m true m1 hr).2 rfl
      exact ih (k + 1) m1 (by rw [hset]; simpa using hlen)

/-- Under its preconditions `match_profile` returns. -/
theorem match_profile_total (state : kanshi_state) (profile : kanshi_profile) (m : matches_t)
    (hok : ∀ h ∈ state.heads, head_ok h = true) (hlen : state.heads.length ≤ HEADS_MAX) :
    ∃ r, match_profile state profile m = some r := by
  unfold match_profile
  split
  · exact ⟨_, rfl⟩
  · exact match_profile_outputs_total hok _ _ _ (by simpa using hlen)

/-- The array left by a successful `match_profile` is a perfect matching of
the heads with the outputs of the profile. -/
theorem match_profile_perfect {state : kanshi_state} {profile : kanshi_profile}
    {m0 m : matches_t} (h : match_profile state profile m0 = some (true, m)) :
    profile.outputs.length = state.heads.length ∧
    matching_inv state.heads profile.outputs state.heads.length m ∧
    ∀ i, i < state.heads.length → ∃ p, m[i]? = some (some p) := by
  unfold match_profile at h
  split at h
  · simp at h
  · rename_i hlen
    simp only [ne_eq, Decidable.not_not] at hlen
    have inv := match_profile_outputs_inv profile.outputs 0 _ m (by simp)
      (matching_inv_init state.heads profile.outputs) h
    simp only [Nat.zero_add, hlen] at inv
    refine ⟨hlen, inv, ?_⟩
    apply all_claimed_of_count m _ inv.count
    intro i x hx
    obtain ⟨_, _, hd, hhd, _⟩ := inv.sound i x hx
    by_contra hcon
    rw [List.getElem?_eq_none (by omega)] at hhd
    simp at hhd

/-- The result of `match_profile` does not depend on the contents of the array
it is handed when it succeeds; when it fails it fails for every array. -/
theorem match_profile_indep {state : kanshi_state} {profile : kanshi_profile}
    {m0 m : matches_t} {b : Bool} (h : match_profile state profile m0 = some (b, m))
    (m1 : matches_t) :
    (b = true → match_profile state profile m1 = some (true, m)) ∧
    (b = false → ∃ m2, match_profile state profile m1 = some (false, m2)) := by
  unfold match_profile at h ⊢
  split
  · rename_i hlen
    rw [if_pos hlen] at h
    simp only [Option.some.injEq, Prod.mk.injEq] at h
    constructor
    · intro hb; rw [hb] at h; simp at h
    · intro _; exact ⟨_, rfl⟩
  · rename_i hlen
    rw [if_neg hlen] at h
    constructor
    · intro hb; rw [hb] at h; exact h
    · intro hb; rw [hb] at h; exact ⟨_, h⟩

/-- What the loop of `match` returns: the first profile for which
`match_profile` succeeds, with the array that call left, after failures of
`match_profile` for every profile before it. -/
theorem match_profiles_spec (state : kanshi_state) :
    ∀ (ps : List kanshi_profile) (j : Nat) (m0 : matches_t)
      (r : Option (ptr kanshi_profile)) (m : matches_t),
      match_profiles state ps j m0 = some (r, m) →
      (∀ q, r = some q → ∃ t, q.addr = j + t ∧ ps[t]? = some q.val ∧
        (∃ m1, match_profile state q.val m1 = some (true, m)) ∧
        ∀ t' p, t' < t → ps[t']? = some p →
          ∃ m1 m2, match_profile state p m1 = some (false, m2)) ∧
      (r = none → ∀ p ∈ ps, ∃ m1 m2, match_profile state p m1 = some (false, m2)) := by
  intro ps
  induction ps with
  | nil =>
    intro j m0 r m h
    simp only [match_profiles, Option.some.injEq, Prod.mk.injEq] at h
    obtain ⟨rfl, rfl⟩ := h
    simp
  | cons p0 rest ih =>
    intro j m0 r m h
    rw [match_profiles] at h
    cases hres : match_profile state p0 m0 with
    | none => simp [hres] at h
    | some x =>
      obtain ⟨b, m1⟩ := x
      cases b with
      | true =>
        simp only [hres, Option.some.injEq, Prod.mk.injEq] at h
        obtain ⟨rfl, rfl⟩ := h
        constructor
        · intro q hq
          simp only [Option.some.injEq] at hq
          subst hq
          refine ⟨0, rfl, by simp, ⟨m0, hres⟩, ?_⟩
          intro t' p ht
          omega
        · intro hn; simp at hn
      | false =>
        simp only [hres] at h
        obtain ⟨ih1, ih2⟩ := ih (j + 1) m1 r m h
        constructor
        · intro q hq
          obtain ⟨t, ha, hp, hm, hbefore⟩ := ih1 q hq
          refine ⟨t + 1, by omega, by simpa using hp, hm, ?_⟩
          intro t' p ht hp'
          cases t' with
          | zero =>
            simp only [List.getElem?_cons_zero, Option.some.injEq] at hp'
            subst hp'
            exact ⟨m0, m1, hres⟩
          | succ t' => exact hbefore t' p (by omega) (by simpa using hp')
        · intro hn p hp
          rcases List.mem_cons.1 hp with rfl | hp
          · exact ⟨m0, m1, hres⟩
          · exact ih2 hn p hp

/-- Under the preconditions of `match_profile` the loop of `match` returns. -/
theorem match_profiles_total (state : kanshi_state)
    (hok : ∀ h ∈ state.heads, head_ok h = true) (hlen : state.heads.length ≤ HEADS_MAX) :
    ∀ (ps : List kanshi_profile) (j : Nat) (m0 : matches_t),
      ∃ r, match_profiles state ps j m0 = some r := by
  intro ps
  induction ps with
  | nil => intro j m0; exact ⟨_, rfl⟩
  | cons p0 rest ih =>
    intro j m0
    rw [match_profiles]
    obtain ⟨x, hx⟩ := match_profile_total state p0 m0 hok hlen
    obtain ⟨b, m1⟩ := x
    rw [hx]
    cases b with
    | true => exact ⟨_, rfl⟩
    | false => exact ih (j + 1) m1


/-! ### Claims C1 and C3: `match` -/

/-- C1. `match` (the spec's `match_best`) returns under its preconditions, and
whenever it returns a profile, that profile is one of the store, has as many
outputs as there are heads, and the array is a perfect matching: every head
has an output of the profile, which is eligible for it (selector `*`, the
head's name or its identity string), no output is given to two heads, and
every output of the profile is given to a head. -/
theorem match_best_perfect_matching (state : kanshi_state) (m0 : matches_t) :
    ((∀ h ∈ state.heads, head_ok h = true) → state.heads.length ≤ HEADS_MAX →
      ∃ r, match_best state m0 = some r) ∧
    (∀ (q : ptr kanshi_profile) (m : matches_t), match_best state m0 = some (some q, m) →
      state.config.profiles[q.addr]? = some q.val ∧
      q.val.outputs.length = state.heads.length ∧
      (∀ (i : Nat) (h : kanshi_head), state.heads[i]? = some h →
        ∃ p : ptr kanshi_profile_output,
          m[i]? = some (some p) ∧ q.val.outputs[p.addr]? = some p.val ∧
          eligible p.val h = true) ∧
      (∀ (i i' : Nat) (p p' : ptr kanshi_profile_output),
        m[i]? = some (some p) → m[i']? = some (some p') → p.addr = p'.addr → i = i') ∧
      (∀ k, k < q.val.outputs.length →
        ∃ (i : Nat) (p : ptr kanshi_profile_output),
          i < state.heads.length ∧ m[i]? = some (some p) ∧ p.addr = k)) := by
  constructor
  · intro hok hlen
    exact match_profiles_total state hok hlen _ _ _
  · intro q m h
    obtain ⟨t, ha, hp, ⟨m1, hm⟩, _⟩ := (match_profiles_spec state _ 0 m0 _ m h).1 q rfl
    obtain ⟨hlen, inv, hall⟩ := match_profile_perfect hm
    simp only [Nat.zero_add] at ha
    refine ⟨by rw [ha]; exact hp, hlen, ?_, inv.inj, ?_⟩
    · intro i h hi
      have hilt : i < state.heads.length := by
        by_contra hcon
        rw [List.getElem?_eq_none (by omega)] at hi
        simp at hi
      obtain ⟨p, hp⟩ := hall i hilt
      obtain ⟨_, ho, h', hh', he⟩ := inv.sound i p hp
      rw [hi] at hh'
      simp only [Option.some.injEq] at hh'
      subst hh'
      exact ⟨p, hp, ho, he⟩
    · intro k hk
      obtain ⟨i, p, hp, hk'⟩ := inv.surj k (by omega)
      obtain ⟨_, _, h', hh', _⟩ := inv.sound i p hp
      refine ⟨i, p, ?_, hp, hk'⟩
      by_contra hcon
      rw [List.getElem?_eq_none (by omega)] at hh'
      simp at hh'

/-- Witness for C1: in the end-to-end scenario `match` returns `laptop-only`
and the array it leaves is a perfect matching. -/
theorem match_best_perfect_matching_witness :
    (∃ r, match_best scenario_state [] = some r) ∧
    scenario_state.config.profiles[0]? = some laptop_only ∧
    laptop_only.outputs.length = scenario_state.heads.length ∧
    (∀ (i : Nat) (h : kanshi_head), scenario_state.heads[i]? = some h →
      ∃ p : ptr kanshi_profile_output, scenario_matches[i]? = some (some p) ∧
        laptop_only.outputs[p.addr]? = some p.val ∧ eligible p.val h = true) :=
  have hr : match_best scenario_state [] = some (some ⟨0, laptop_only⟩, scenario_matches) := by
    decide
  ⟨(match_best_perfect_matching scenario_state []).1 (by decide) (by decide),
   ((match_best_perfect_matching scenario_state []).2 _ _ hr).1,
   ((match_best_perfect_matching scenario_state []).2 _ _ hr).2.1,
   ((match_best_perfect_matching scenario_state []).2 _ _ hr).2.2.1⟩

/-- C3. `match` (the spec's `match_best`) returns under its preconditions;
when it returns a profile, this is a profile of the store for which
`match_profile` succeeds, leaving the array returned, and `match_profile`
fails for every profile declared before it; when it returns none,
`match_profile` fails for every profile. In the end-to-end scenario the
result is `laptop-only`, declared first, in either order of the heads. -/
theorem match_best_first_match (state : kanshi_state) (m0 : matches_t) :
    ((∀ h ∈ state.heads, head_ok h = true) → state.heads.length ≤ HEADS_MAX →
      ∃ r, match_best state m0 = some r) ∧
    (∀ (q : ptr kanshi_profile) (m : matches_t), match_best state m0 = some (some q, m) →
      state.config.profiles[q.addr]? = some q.val ∧
      (∀ m1, match_profile state q.val m1 = some (true, m)) ∧
      ∀ (j : Nat) (p : kanshi_profile), j < q.addr → state.config.profiles[j]? = some p →
        ∀ m1, ∃ m2, match_profile state p m1 = some (false, m2)) ∧
    (∀ m : matches_t, match_best state m0 = some (none, m) →
      ∀ p ∈ state.config.profiles, ∀ m1, ∃ m2, match_profile state p m1 = some (false, m2)) ∧
    (∃ m, match_best scenario_state m0 = some (some ⟨0, laptop_only⟩, m)) ∧
    (∃ m, match_best scenario_state_rev m0 = some (some ⟨0, laptop_only⟩, m)) := by
  refine ⟨?_, ?_, ?_, ?_, ?_⟩
  · intro hok hlen
    exact match_profiles_total state hok hlen _ _ _
  · intro q m h
    obtain ⟨t, ha, hp, ⟨m1, hm⟩, hbefore⟩ := (match_profiles_spec state _ 0 m0 _ m h).1 q rfl
    simp only [Nat.zero_add] at ha
    refine ⟨by rw [ha]; exact hp, fun m2 => (match_profile_indep hm m2).1 rfl, ?_⟩
    intro j p hj hp' m2
    obtain ⟨m3, m4, hf⟩ := hbefore j p (by omega) hp'
    exact (match_profile_indep hf m2).2 rfl
  · intro m h p hp m2
    obtain ⟨m3, m4, hf⟩ := (match_profiles_spec state _ 0 m0 _ m h).2 rfl p hp
    exact (match_profile_indep hf m2).2 rfl
  · have hm : match_profile scenario_state laptop_only [] = some (true, scenario_matches) := by
      decide
    have e : match_best scenario_state m0 =
        match_profiles scenario_state [laptop_only, docked] 0 m0 := rfl
    exact ⟨_, by rw [e, match_profiles, (match_profile_indep hm m0).1 rfl]⟩
  · have hm : match_profile scenario_state_rev laptop_only [] =
        some (true, scenario_matches_rev) := by decide
    have e : match_best scenario_state_rev m0 =
        match_profiles scenario_state_rev [laptop_only, docked] 0 m0 := rfl
    exact ⟨_, by rw [e, match_profiles, (match_profile_indep hm m0).1 rfl]⟩

/-! ### Claim C2: `match_profile` refines the first-fit reference -/

/-- Entry `i` of the assignment is the address held by entry `i` of the array. -/
theorem assignment_of_getElem? {n i : Nat} (m : matches_t) (hi : i < n) :
    (assignment_of n m)[i]? = (m[i]?).map (Option.map ptr.addr) := by
  unfold assignment_of
  rw [List.getElem?_map, List.getElem?_take_of_lt hi]

/-- Claiming a head in the array claims it in the assignment. -/
theorem assignment_of_set (n j : Nat) (m : matches_t) (p : ptr kanshi_profile_output) :
    assignment_of n (m.set j (some p)) = (assignment_of n m).set j (some p.addr) := by
  unfold assignment_of
  rw [List.set_take, List.map_set]
  rfl

/-- An entry of the heads zipped with the assignment is a head with the address
held by the array at its index. -/
theorem zip_assignment_getElem? {heads : List kanshi_head} {m : matches_t} {i : Nat}
    {x : kanshi_head × Option Nat}
    (hx : (heads.zip (assignment_of heads.length m))[i]? = some x) :
    heads[i]? = some x.1 ∧ ∃ y, m[i]? = some y ∧ x.2 = y.map ptr.addr := by
  rw [List.getElem?_zip_eq_some] at hx
  obtain ⟨h1, h2⟩ := hx
  refine ⟨h1, ?_⟩
  have hi : i < heads.length := by
    by_contra hcon
    rw [List.getElem?_eq_none (by omega)] at h1
    simp at h1
  rw [assignment_of_getElem? m hi] at h2
  cases hm : m[i]? with
  | none => simp [hm] at h2
  | some y =>
    simp only [hm, Option.map_some', Option.some.injEq] at h2
    exact ⟨y, rfl, h2.symm⟩

/-- The scan of the heads in `match_profile` picks the head the reference
picks. -/
theorem first_fit_pick_of_heads {heads : List kanshi_head} {p : ptr kanshi_profile_output}
    {m m' : matches_t} {b : Bool}
    (hres : match_profile_heads p heads 0 m = some (b, m')) (hlen : heads.length ≤ m.length) :
    (b = false → m' = m ∧
      first_fit_pick heads (assignment_of heads.length m) p.val = none) ∧
    (b = true → ∃ j, j < heads.length ∧ m' = m.set j (some p) ∧
      first_fit_pick heads (assignment_of heads.length m) p.val = some j) := by
  obtain ⟨h1, h2⟩ := match_profile_heads_spec p heads 0 m b m' hres
  constructor
  · intro hb
    obtain ⟨e, hall⟩ := h1 hb
    refine ⟨e, ?_⟩
    unfold first_fit_pick
    rw [List.findIdx?_eq_none_iff]
    intro x hx
    obtain ⟨i, hi⟩ := List.mem_iff_getElem?.1 hx
    obtain ⟨hh, y, hy, hxy⟩ := zip_assignment_getElem? hi
    have := hall i x.1 hh
    simp only [Nat.zero_add, hy, Option.some.injEq, not_and, Bool.not_eq_true] at this
    cases y with
    | none => simp [hxy, this rfl]
    | some q => simp [hxy]
  · intro hb
    obtain ⟨j, h, hj, hm, he, hset, hmin⟩ := h2 hb
    simp only [Nat.zero_add] at hm hset hmin
    have hjlt : j < heads.length := by
      by_contra hcon
      rw [List.getElem?_eq_none (by omega)] at hj
      simp at hj
    refine ⟨j, hjlt, hset, ?_⟩
    unfold first_fit_pick
    rw [List.findIdx?_eq_some_iff_getElem]
    have hzl : (heads.zip (assignment_of heads.length m)).length = heads.length := by
      simp [assignment_of]
      omega
    refine ⟨by omega, ?_, ?_⟩
    · have hz : (heads.zip (assignment_of heads.length m))[j]? =
          some ((heads.zip (assignment_of heads.length m))[j]) :=
        List.getElem?_eq_getElem (by omega)
      obtain ⟨hh, y, hy, hxy⟩ := zip_assignment_getElem? hz
      rw [hj] at hh
      rw [hm] at hy
      simp only [Option.some.injEq] at hh hy
      subst hy
      show ((heads.zip (assignment_of heads.length m))[j].2.isNone &&
        eligible p.val (heads.zip (assignment_of heads.length m))[j].1) = true
      rw [hxy, ← hh, he]
      rfl
    · intro j' hj'
      have hz : (heads.zip (assignment_of heads.length m))[j']? =
          some ((heads.zip (assignment_of heads.length m))[j']) :=
        List.getElem?_eq_getElem (by omega)
      obtain ⟨hh, y, hy, hxy⟩ := zip_assignment_getElem? hz
      have := hmin j' _ hj' hh
      simp only [hy, Option.some.injEq, not_and, Bool.not_eq_true] at this
      show ¬ ((heads.zip (assignment_of heads.length m))[j'].2.isNone &&
        eligible p.val (heads.zip (assignment_of heads.length m))[j'].1) = true
      rw [hxy]
      cases y with
      | none => rw [this rfl]; simp
      | some q => simp

/-- The outer loop of `match_profile` refines the greedy pass of the reference. -/
theorem first_fit_from_of_outputs {heads : List kanshi_head} :
    ∀ (rest : List kanshi_profile_output) (k : Nat) (m m' : matches_t) (b : Bool),
      heads.length ≤ m.length →
      match_profile_outputs heads rest k m = some (b, m') →
      (b = false → first_fit_from heads rest k (assignment_of heads.length m) = none) ∧
      (b = true → first_fit_from heads rest k (assignment_of heads.length m) =
        some (assignment_of heads.length m')) := by
  intro rest
  induction rest with
  | nil =>
    intro k m m' b _ h
    simp only [match_profile_outputs, Option.some.injEq, Prod.mk.injEq] at h
    obtain ⟨rfl, rfl⟩ := h
    simp [first_fit_from]
  | cons c rest ih =>
    intro k m m' b hlen h
    rw [match_profile_outputs] at h
    cases hres : match_profile_heads ⟨k, c⟩ heads 0 m with
    | none => simp [hres] at h
    | some r =>
      obtain ⟨b1, m1⟩ := r
      obtain ⟨p1, p2⟩ := first_fit_pick_of_heads hres hlen
      cases b1 with
      | false =>
        simp only [hres, Option.some.injEq, Prod.mk.injEq] at h
        obtain ⟨rfl, rfl⟩ := h
        obtain ⟨_, hp⟩ := p1 rfl
        simp only [first_fit_from, hp]
        simp
      | true =>
        simp only [hres] at h
        obtain ⟨j, hj, hset, hp⟩ := p2 rfl
        have := ih (k + 1) m1 m' b (by rw [hset]; simpa using hlen) h
        rw [hset, assignment_of_set] at this
        simp only [first_fit_from, hp]
        exact this

/-- C2. Under its preconditions `match_profile` returns what the greedy
first-fit reference returns: failure when the reference fails (the numbers of
constraints and heads differ, or some constraint in profile order finds no
unclaimed eligible head), and otherwise the reference's assignment, each
array entry pointing to the output at the position the reference gives. For
the profile `[exact("A"), wildcard]` and heads `A`, `B` in either model
order it succeeds with the exact constraint on `A` and the wildcard on `B`. -/
theorem match_profile_first_fit :
    (∀ (state : kanshi_state) (profile : kanshi_profile) (m0 : matches_t),
      (∀ h ∈ state.heads, head_ok h = true) → state.heads.length ≤ HEADS_MAX →
      ∃ b m, match_profile state profile m0 = some (b, m) ∧
        (b = false → first_fit state.heads profile.outputs = none) ∧
        (b = true →
          first_fit state.heads profile.outputs =
            some (assignment_of state.heads.length m) ∧
          ∀ (i : Nat) (p : ptr kanshi_profile_output), m[i]? = some (some p) →
            profile.outputs[p.addr]? = some p.val)) ∧
    (∀ m0, match_profile heads_a_b exact_then_wildcard m0 =
      some (true, two_matches ⟨0, output_named "A"⟩ ⟨1, output_named "*"⟩)) ∧
    (∀ m0, match_profile heads_b_a exact_then_wildcard m0 =
      some (true, two_matches ⟨1, output_named "*"⟩ ⟨0, output_named "A"⟩)) := by
  refine ⟨?_, ?_, ?_⟩
  · intro state profile m0 hok hlen
    obtain ⟨r, hr⟩ := match_profile_total state profile m0 hok hlen
    obtain ⟨b, m⟩ := r
    refine ⟨b, m, hr, ?_, ?_⟩
    · intro hb
      subst hb
      unfold first_fit
      unfold match_profile at hr
      split
      · rfl
      · rename_i hne
        rw [if_neg hne] at hr
        have := (first_fit_from_of_outputs profile.outputs 0 _ m false
          (by simpa using hlen) hr).1 rfl
        simpa [assignment_of, List.take_replicate, hlen] using this
    · intro hb
      subst hb
      constructor
      · unfold first_fit
        unfold match_profile at hr
        split
        · rename_i hne
          rw [if_pos hne] at hr
          simp at hr
        · rename_i hne
          rw [if_neg hne] at hr
          have := (first_fit_from_of_outputs profile.outputs 0 _ m true
            (by simpa using hlen) hr).2 rfl
          simpa [assignment_of, List.take_replicate, hlen] using this
      · intro i p hp
        exact ((match_profile_perfect hr).2.1.sound i p hp).2.1
  · intro m0
    have h : match_profile heads_a_b exact_then_wildcard [] =
        some (true, two_matches ⟨0, output_named "A"⟩ ⟨1, output_named "*"⟩) := by decide
    exact (match_profile_indep h m0).1 rfl
  · intro m0
    have h : match_profile heads_b_a exact_then_wildcard [] =
        some (true, two_matches ⟨1, output_named "*"⟩ ⟨0, output_named "A"⟩) := by decide
    exact (match_profile_indep h m0).1 rfl

/-- Witness for C2: the two heads `A`, `B` satisfy the preconditions, and the
reference agrees with `match_profile` there. -/
theorem match_profile_first_fit_witness :
    ∃ b m, match_profile heads_a_b exact_then_wildcard [] = some (b, m) ∧
      (b = false → first_fit heads_a_b.heads exact_then_wildcard.outputs = none) ∧
      (b = true →
        first_fit heads_a_b.heads exact_then_wildcard.outputs =
          some (assignment_of heads_a_b.heads.length m) ∧
        ∀ (i : Nat) (p : ptr kanshi_profile_output), m[i]? = some (some p) →
          exact_then_wildcard.outputs[p.addr]? = some p.val) :=
  match_profile_first_fit.1 heads_a_b exact_then_wildcard [] (by decide) (by decide)

/-- Witness for C3: the end-to-end scenario satisfies the preconditions, so
`match` returns there. -/
theorem match_best_first_match_witness :
    (∃ r, match_best scenario_state [] = some r) ∧
    (∀ m1, match_profile scenario_state laptop_only m1 = some (true, scenario_matches)) :=
  have hr : match_best scenario_state [] = some (some ⟨0, laptop_only⟩, scenario_matches) := by
    decide
  ⟨(match_best_first_match scenario_state []).1 (by decide) (by decide),
   ((match_best_first_match scenario_state []).2.1 _ _ hr).2.1⟩

/-! ### Claim C6: `match_profile_output` -/

/-- C6. For a head that has a name and whose identity fields fit the 1024-byte
buffer, `match_profile_output` returns, and returns true exactly when the
selector is `*`, or is the head's name, or is the identity string
`make ++ " " ++ model ++ " " ++ serial_number` with `Unknown` for each absent
field. A head with make absent, model `X` and serial absent has the identity
`Unknown X Unknown`, and a selector equal to it matches. -/
theorem match_profile_output_iff :
    (∀ (output : kanshi_profile_output) (head : kanshi_head) (name : String),
      head.name = some name →
      strlen (head.make.getD "Unknown") + strlen (head.model.getD "Unknown") +
        strlen (head.serial_number.getD "Unknown") + 3 ≤ 1024 →
      ∃ b, match_profile_output output head = some b ∧
        (b = true ↔ output.name = "*" ∨ output.name = name ∨
          output.name = head.make.getD "Unknown" ++ " " ++ head.model.getD "Unknown" ++
            " " ++ head.serial_number.getD "Unknown")) ∧
    (∀ head : kanshi_head, head.make = none → head.model = some "X" →
      head.serial_number = none → identifier head = "Unknown X Unknown") ∧
    (∀ (output : kanshi_profile_output) (head : kanshi_head) (name : String),
      head.name = some name → head.make = none → head.model = some "X" →
      head.serial_number = none → output.name = "Unknown X Unknown" →
      match_profile_output output head = some true) := by
  have key : ∀ (output : kanshi_profile_output) (head : kanshi_head) (name : String),
      head.name = some name →
      strlen (head.make.getD "Unknown") + strlen (head.model.getD "Unknown") +
        strlen (head.serial_number.getD "Unknown") + 3 ≤ 1024 →
      match_profile_output output head = some (eligible output head) := by
    intro output head name hname hfit
    apply match_profile_output_ok
    simp [head_ok, hname, identifier_fits, hfit]
  refine ⟨?_, ?_, ?_⟩
  · intro output head name hname hfit
    refine ⟨_, key output head name hname hfit, ?_⟩
    simp [eligible, hname, identifier, or_assoc]
  · intro head h1 h2 h3
    simp only [identifier, h1, h2, h3, Option.getD_none, Option.getD_some]
    decide
  · intro output head name hname h1 h2 h3 ho
    have hfit : strlen (head.make.getD "Unknown") + strlen (head.model.getD "Unknown") +
        strlen (head.serial_number.getD "Unknown") + 3 ≤ 1024 := by
      simp only [h1, h2, h3, Option.getD_none, Option.getD_some]
      decide
    rw [key output head name hname hfit]
    have hid : identifier head = "Unknown X Unknown" := by
      simp only [identifier, h1, h2, h3, Option.getD_none, Option.getD_some]
      decide
    simp [eligible, hid, ho]

/-- Witness for C6: the head with model `X` only, named `DP-3`, and the
selector `Unknown X Unknown`. -/
theorem match_profile_output_iff_witness :
    ∃ b, match_profile_output (output_named "Unknown X Unknown") head_model_x = some b ∧
      (b = true ↔ (output_named "Unknown X Unknown").name = "*" ∨
        (output_named "Unknown X Unknown").name = "DP-3" ∨
        (output_named "Unknown X Unknown").name =
          head_model_x.make.getD "Unknown" ++ " " ++ head_model_x.model.getD "Unknown" ++
            " " ++ head_model_x.serial_number.getD "Unknown") :=
  match_profile_output_iff.1 (output_named "Unknown X Unknown") head_model_x "DP-3" rfl
    (by decide)

/-! ### Claims C4 and C5: `match_mode` -/

/-- A value representable in 32 bits is not changed by the wrap-around. -/
theorem wrap32_of_range {x : Int} (h1 : -2147483648 ≤ x) (h2 : x ≤ 2147483647) :
    wrap32 x = x := by
  unfold wrap32
  omega

/-- Without overflow `match_refresh` computes the distance to the target. -/
theorem abs32_wrap32_sub {refresh r : Int} (h : |refresh - r| ≤ INT32_MAX) :
    abs32 (wrap32 (refresh - r)) = |r - refresh| := by
  unfold INT32_MAX at h
  have h' := abs_le.1 h
  rw [wrap32_of_range (by omega) (by omega)]
  unfold abs32
  rw [abs_sub_comm]
  split
  · rename_i hneg
    rw [wrap32_of_range (by omega) (by omega), abs_of_neg hneg]
  · rename_i hpos
    rw [wrap32_of_range (by omega) (by omega), abs_of_nonneg (not_lt.1 hpos)]

/-- The loop of `match_mode` at the end of the list of modes. -/
theorem match_mode_loop_nil (width height refresh : Int) (last : Option kanshi_mode)
    (delta : Int) : match_mode_loop width height refresh [] last delta = last := rfl

/-- One iteration of the loop of `match_mode`. -/
theorem match_mode_loop_cons (width height refresh : Int) (mode : kanshi_mode)
    (rest : List kanshi_mode) (last_match : Option kanshi_mode) (mode_delta : Int) :
    match_mode_loop width height refresh (mode :: rest) last_match mode_delta =
    if mode.width ≠ width ∨ mode.height ≠ height then
      match_mode_loop width height refresh rest last_match mode_delta
    else if refresh ≠ 0 then
      match match_refresh mode refresh mode_delta with
      | (true, delta) => match_mode_loop width height refresh rest (some mode) delta
      | (false, delta) => match_mode_loop width height refresh rest last_match delta
    else
      match last_match with
      | none => match_mode_loop width height refresh rest (some mode) mode_delta
      | some last =>
        if mode.refresh > last.refresh then
          match_mode_loop width height refresh rest (some mode) mode_delta
        else match_mode_loop width height refresh rest last_match mode_delta := rfl

/-- The loop of `match_mode` for a non-zero refresh target: it ends with no
mode exactly when it started with none and no mode of the requested size is
within 50 of the target, and a mode it ends with is the kept one or a mode of
the list of the requested size, is within 50, and is at least as close as
the kept mode and every mode of the list of the requested size. -/
theorem match_mode_loop_refresh (width height refresh : Int) (hr : refresh ≠ 0) :
    ∀ (modes : List kanshi_mode) (last : Option kanshi_mode) (delta : Int),
      (∀ m ∈ modes, m.width = width → m.height = height →
        |refresh - m.refresh| ≤ INT32_MAX) →
      refresh_state refresh last delta →
      (match_mode_loop width height refresh modes last delta = none ↔
        last = none ∧ ∀ m ∈ modes, m.width = width → m.height = height →
          ¬ |m.refresh - refresh| < 50) ∧
      ∀ x, match_mode_loop width height refresh modes last delta = some x →
        (some x = last ∨ (x ∈ modes ∧ x.width = width ∧ x.height = height)) ∧
        |x.refresh - refresh| < 50 ∧
        (∀ m ∈ modes, m.width = width → m.height = height →
          |x.refresh - refresh| ≤ |m.refresh - refresh|) ∧
        (∀ l, last = some l → |x.refresh - refresh| ≤ |l.refresh - refresh|) := by
  intro modes
  induction modes with
  | nil =>
    intro last delta _ hst
    constructor
    · rw [match_mode_loop_nil]
      constructor
      · intro h
        exact ⟨h, fun m hm => absurd hm (List.not_mem_nil m)⟩
      · intro h
        exact h.1
    · intro x hx
      rw [match_mode_loop_nil] at hx
      subst hx
      have h50 : |x.refresh - refresh| < 50 := hst.2
      refine ⟨Or.inl rfl, h50, fun m hm => absurd hm (List.not_mem_nil m), ?_⟩
      intro l hl
      rw [Option.some.injEq] at hl
      subst hl
      exact le_refl _
  | cons mode rest ih =>
    intro last delta hov hst
    have hov' : ∀ m ∈ rest, m.width = width → m.height = height →
        |refresh - m.refresh| ≤ INT32_MAX :=
      fun m hm => hov m (List.mem_cons_of_mem _ hm)
    rw [match_mode_loop_cons]
    split
    · rename_i hdim
      obtain ⟨i1, i2⟩ := ih last delta hov' hst
      have hnd : ¬ (mode.width = width ∧ mode.height = height) := by
        intro hc; rcases hdim with h | h
        · exact h hc.1
        · exact h hc.2
      constructor
      · rw [i1]
        constructor
        · rintro ⟨h1, h2⟩
          refine ⟨h1, ?_⟩
          intro m hm hw hh
          rcases List.mem_cons.1 hm with rfl | hm
          · exact absurd ⟨hw, hh⟩ hnd
          · exact h2 m hm hw hh
        · rintro ⟨h1, h2⟩
          exact ⟨h1, fun m hm => h2 m (List.mem_cons_of_mem _ hm)⟩
      · intro x hx
        obtain ⟨j1, j2, j3, j4⟩ := i2 x hx
        refine ⟨?_, j2, ?_, j4⟩
        · rcases j1 with h | ⟨h1, h2⟩
          · exact Or.inl h
          · exact Or.inr ⟨List.mem_cons_of_mem _ h1, h2⟩
        · intro m hm hw hh
          rcases List.mem_cons.1 hm with rfl | hm
          · exact absurd ⟨hw, hh⟩ hnd
          · exact j3 m hm hw hh
    · rename_i hdim
      simp only [ne_eq, not_or, Decidable.not_not] at hdim
      obtain ⟨hw0, hh0⟩ := hdim
      have habs := abs32_wrap32_sub (hov mode (List.mem_cons_self _ _) hw0 hh0)
      have hmr : match_refresh mode refresh delta =
          if |mode.refresh - refresh| < 50 ∧ |mode.refresh - refresh| < delta then
            (true, |mode.refresh - refresh|) else (false, delta) := by
        unfold match_refresh
        simp only [habs]
      rw [hmr]
      by_cases hcond : |mode.refresh - refresh| < 50 ∧ |mode.refresh - refresh| < delta
      · rw [if_pos hcond]
        dsimp only
        obtain ⟨hc1, hc2⟩ := hcond
        obtain ⟨i1, i2⟩ := ih (some mode) |mode.refresh - refresh| hov'
          (show |mode.refresh - refresh| = |mode.refresh - refresh| ∧ _ from ⟨rfl, hc1⟩)
        constructor
        · constructor
          · intro hn
            rw [i1] at hn
            simp at hn
          · rintro ⟨_, h2⟩
            exact absurd hc1 (h2 mode (List.mem_cons_self _ _) hw0 hh0)
        · intro x hx
          obtain ⟨j1, j2, j3, j4⟩ := i2 x hx
          have hxm := j4 mode rfl
          refine ⟨Or.inr ?_, j2, ?_, ?_⟩
          · rcases j1 with h | ⟨h1, h2⟩
            · simp only [Option.some.injEq] at h
              subst h
              exact ⟨List.mem_cons_self _ _, hw0, hh0⟩
            · exact ⟨List.mem_cons_of_mem _ h1, h2⟩
          · intro m hm hw hh
            rcases List.mem_cons.1 hm with rfl | hm
            · exact hxm
            · exact j3 m hm hw hh
          · intro l hl
            subst hl
            simp only [refresh_state] at hst
            omega
      · rw [if_neg hcond]
        dsimp only
        obtain ⟨i1, i2⟩ := ih last delta hov' hst
        have hfar : last = none → ¬ |mode.refresh - refresh| < 50 := by
          intro hl hlt
          subst hl
          simp only [refresh_state] at hst
          exact hcond ⟨hlt, by omega⟩
        constructor
        · rw [i1]
          constructor
          · rintro ⟨h1, h2⟩
            refine ⟨h1, ?_⟩
            intro m hm hw hh
            rcases List.mem_cons.1 hm with rfl | hm
            · exact hfar h1
            · exact h2 m hm hw hh
          · rintro ⟨h1, h2⟩
            exact ⟨h1, fun m hm => h2 m (List.mem_cons_of_mem _ hm)⟩
        · intro x hx
          obtain ⟨j1, j2, j3, j4⟩ := i2 x hx
          refine ⟨?_, j2, ?_, j4⟩
          · rcases j1 with h | ⟨h1, h2⟩
            · exact Or.inl h
            · exact Or.inr ⟨List.mem_cons_of_mem _ h1, h2⟩
          · intro m hm hw hh
            rcases List.mem_cons.1 hm with rfl | hm
            · cases last with
              | none =>
                have := hfar rfl
                omega
              | some l =>
                have := j4 l rfl
                simp only [refresh_state] at hst
                by_cases hlt : |m.refresh - refresh| < 50
                · have : ¬ |m.refresh - refresh| < delta := fun h => hcond ⟨hlt, h⟩
                  omega
                · omega
            · exact j3 m hm hw hh

/-- The loop of `match_mode` for the refresh target 0: it ends with no mode
exactly when it started with none and no mode has the requested size, and a
mode it ends with is the kept one or a mode of the list of the requested
size, with a refresh rate at least that of the kept mode and of every mode
of the list of the requested size. -/
theorem match_mode_loop_highest (width height : Int) :
    ∀ (modes : List kanshi_mode) (last : Option kanshi_mode) (delta : Int),
      (match_mode_loop width height 0 modes last delta = none ↔
        last = none ∧ ∀ m ∈ modes, ¬ (m.width = width ∧ m.height = height)) ∧
      ∀ x, match_mode_loop width height 0 modes last delta = some x →
        (some x = last ∨ (x ∈ modes ∧ x.width = width ∧ x.height = height)) ∧
        (∀ m ∈ modes, m.width = width → m.height = height → m.refresh ≤ x.refresh) ∧
        (∀ l, last = some l → l.refresh ≤ x.refresh) := by
  intro modes
  induction modes with
  | nil =>
    intro last delta
    rw [match_mode_loop_nil]
    refine ⟨⟨fun h => ⟨h, fun m hm => absurd hm (List.not_mem_nil m)⟩, fun h => h.1⟩, ?_⟩
    intro x hx
    subst hx
    refine ⟨Or.inl rfl, fun m hm => absurd hm (List.not_mem_nil m), ?_⟩
    intro l hl
    rw [Option.some.injEq] at hl
    subst hl
    exact le_refl _
  | cons mode rest ih =>
    intro last delta
    rw [match_mode_loop_cons]
    by_cases hdim : mode.width ≠ width ∨ mode.height ≠ height
    · rw [if_pos hdim]
      obtain ⟨i1, i2⟩ := ih last delta
      have hnd : ¬ (mode.width = width ∧ mode.height = height) := by
        intro hc; rcases hdim with h | h
        · exact h hc.1
        · exact h hc.2
      constructor
      · rw [i1]
        constructor
        · rintro ⟨h1, h2⟩
          refine ⟨h1, ?_⟩
          intro m hm
          rcases List.mem_cons.1 hm with rfl | hm
          · exact hnd
          · exact h2 m hm
        · rintro ⟨h1, h2⟩
          exact ⟨h1, fun m hm => h2 m (List.mem_cons_of_mem _ hm)⟩
      · intro x hx
        obtain ⟨j1, j2, j3⟩ := i2 x hx
        refine ⟨?_, ?_, j3⟩
        · rcases j1 with h | ⟨h1, h2⟩
          · exact Or.inl h
          · exact Or.inr ⟨List.mem_cons_of_mem _ h1, h2⟩
        · intro m hm hw hh
          rcases List.mem_cons.1 hm with rfl | hm
          · exact absurd ⟨hw, hh⟩ hnd
          · exact j2 m hm hw hh
    · rw [if_neg hdim, if_neg (by simp)]
      simp only [ne_eq, not_or, Decidable.not_not] at hdim
      cases last with
      | none =>
        dsimp only
        obtain ⟨i1, i2⟩ := ih (some mode) delta
        constructor
        · constructor
          · intro hn
            rw [i1] at hn
            simp at hn
          · rintro ⟨_, h2⟩
            exact absurd hdim (h2 mode (List.mem_cons_self _ _))
        · intro x hx
          obtain ⟨j1, j2, j3⟩ := i2 x hx
          refine ⟨Or.inr ?_, ?_, fun l hl => by simp at hl⟩
          · rcases j1 with h | ⟨h1, h2⟩
            · rw [Option.some.injEq] at h
              subst h
              exact ⟨List.mem_cons_self _ _, hdim⟩
            · exact ⟨List.mem_cons_of_mem _ h1, h2⟩
          · intro m hm hw hh
            rcases List.mem_cons.1 hm with rfl | hm
            · exact j3 m rfl
            · exact j2 m hm hw hh
      | some l0 =>
        dsimp only
        by_cases hgt : mode.refresh > l0.refresh
        · rw [if_pos hgt]
          obtain ⟨i1, i2⟩ := ih (some mode) delta
          constructor
          · constructor
            · intro hn
              rw [i1] at hn
              simp at hn
            · rintro ⟨h1, _⟩
              simp at h1
          · intro x hx
            obtain ⟨j1, j2, j3⟩ := i2 x hx
            have hmx := j3 mode rfl
            refine ⟨Or.inr ?_, ?_, ?_⟩
            · rcases j1 with h | ⟨h1, h2⟩
              · rw [Option.some.injEq] at h
                subst h
                exact ⟨List.mem_cons_self _ _, hdim⟩
              · exact ⟨List.mem_cons_of_mem _ h1, h2⟩
            · intro m hm hw hh
              rcases List.mem_cons.1 hm with rfl | hm
              · exact hmx
              · exact j2 m hm hw hh
            · intro l hl
              rw [Option.some.injEq] at hl
              subst hl
              omega
        · rw [if_neg hgt]
          obtain ⟨i1, i2⟩ := ih (some l0) delta
          constructor
          · constructor
            · intro hn
              rw [i1] at hn
              simp at hn
            · rintro ⟨h1, _⟩
              simp at h1
          · intro x hx
            obtain ⟨j1, j2, j3⟩ := i2 x hx
            have hlx := j3 l0 rfl
            refine ⟨?_, ?_, j3⟩
            · rcases j1 with h | ⟨h1, h2⟩
              · exact Or.inl h
              · exact Or.inr ⟨List.mem_cons_of_mem _ h1, h2⟩
            · intro m hm hw hh
              rcases List.mem_cons.1 hm with rfl | hm
              · omega
              · exact j2 m hm hw hh

/-- C4 as stated fails: for the target 59991 the distance to the 59940 mode
is 51, not 49, and `match_mode` returns no mode. -/
theorem match_mode_59991_no_match :
    |(59940 : Int) - 59991| = 51 ∧
    match_mode head_one_mode 1920 1080 59991 = none ∧
    match_mode head_one_mode 1920 1080 59991 ≠ some (mode_1080 1 59940) := by
  refine ⟨by decide, by decide, by decide⟩

/-- C4, amended. For a non-zero refresh target, when `target - mode.refresh`
and its absolute value do not overflow `int` for the modes of the requested
size, `match_mode` returns a mode exactly when some mode of the head has the
requested width and height and a refresh rate within less than 50 of the
target; the mode returned is a mode of the head with that width and height,
within less than 50, and no mode of that width and height is closer to the
target. For the single mode 59940 the targets 59990 (distance 50) and 59991
(distance 51) give no mode and the target 59989 (distance 49) gives the mode;
for the modes 59940, 60000, 74970 the target 60000 gives the 60000 mode. -/
theorem match_mode_refresh_closest :
    (∀ (head : kanshi_head) (width height refresh : Int), refresh ≠ 0 →
      (∀ m ∈ head.modes, m.width = width → m.height = height →
        |refresh - m.refresh| ≤ INT32_MAX) →
      ((match_mode head width height refresh).isSome = true ↔
        ∃ m ∈ head.modes, m.width = width ∧ m.height = height ∧
          |m.refresh - refresh| < 50) ∧
      ∀ x, match_mode head width height refresh = some x →
        x ∈ head.modes ∧ x.width = width ∧ x.height = height ∧
        |x.refresh - refresh| < 50 ∧
        ∀ m ∈ head.modes, m.width = width → m.height = height →
          |x.refresh - refresh| ≤ |m.refresh - refresh|) ∧
    match_mode head_one_mode 1920 1080 59990 = none ∧
    match_mode head_one_mode 1920 1080 59991 = none ∧
    match_mode head_one_mode 1920 1080 59989 = some (mode_1080 1 59940) ∧
    match_mode head_three_modes 1920 1080 60000 = some (mode_1080 2 60000) := by
  refine ⟨?_, by decide, by decide, by decide, by decide⟩
  intro head width height refresh hr hov
  obtain ⟨i1, i2⟩ := match_mode_loop_refresh width height refresh hr head.modes none
    INT32_MAX hov (show (50 : Int) ≤ INT32_MAX by decide)
  constructor
  · rw [← Option.ne_none_iff_isSome]
    unfold match_mode
    rw [ne_eq, i1]
    simp only [true_and, not_forall, Decidable.not_not]
    constructor
    · rintro ⟨m, hm, hw, hh, hlt⟩
      exact ⟨m, hm, hw, hh, hlt⟩
    · rintro ⟨m, hm, hw, hh, hlt⟩
      exact ⟨m, hm, hw, hh, hlt⟩
  · intro x hx
    obtain ⟨j1, j2, j3, _⟩ := i2 x hx
    rcases j1 with h | ⟨h1, h2, h3⟩
    · simp at h
    · exact ⟨h1, h2, h3, j2, j3⟩

/-- Witness for C4: the head with the modes 59940, 60000, 74970 and the target
60000 satisfy the hypotheses. -/
theorem match_mode_refresh_closest_witness :
    ((match_mode head_three_modes 1920 1080 60000).isSome = true ↔
      ∃ m ∈ head_three_modes.modes, m.width = 1920 ∧ m.height = 1080 ∧
        |m.refresh - 60000| < 50) ∧
    ∀ x, match_mode head_three_modes 1920 1080 60000 = some x →
      x ∈ head_three_modes.modes ∧ x.width = 1920 ∧ x.height = 1080 ∧
      |x.refresh - 60000| < 50 ∧
      ∀ m ∈ head_three_modes.modes, m.width = 1920 → m.height = 1080 →
        |x.refresh - 60000| ≤ |m.refresh - 60000| :=
  match_mode_refresh_closest.1 head_three_modes 1920 1080 60000 (by decide)
    (by decide)

/-- C5. With the refresh target 0, `match_mode` returns no mode exactly when no
mode of the head has the requested width and height; a mode it returns is a
mode of the head with that width and height whose refresh rate is at least
that of every mode with that width and height. For the modes 59940, 60000,
74970 it returns the 74970 mode. -/
theorem match_mode_highest (head : kanshi_head) (width height : Int) :
    (match_mode head width height 0 = none ↔
      ∀ m ∈ head.modes, ¬ (m.width = width ∧ m.height = height)) ∧
    (∀ x, match_mode head width height 0 = some x →
      x ∈ head.modes ∧ x.width = width ∧ x.height = height ∧
      ∀ m ∈ head.modes, m.width = width → m.height = height → m.refresh ≤ x.refresh) ∧
    match_mode head_three_modes 1920 1080 0 = some (mode_1080 3 74970) := by
  obtain ⟨i1, i2⟩ := match_mode_loop_highest width height head.modes none INT32_MAX
  refine ⟨?_, ?_, by decide⟩
  · unfold match_mode
    rw [i1]
    simp
  · intro x hx
    obtain ⟨j1, j2, _⟩ := i2 x hx
    rcases j1 with h | ⟨h1, h2, h3⟩
    · simp at h
    · exact ⟨h1, h2, h3, j2⟩

/-! ### Claims C7, C8 and C9: `apply_profile` -/

/-- Invoking a completion appends its call, if it is given, and does nothing else. -/
theorem invoke_done (callback : callback_t) (success : Bool) (world : effects) :
    (invoke callback success world).done = world.done ++ completion_calls callback success ∧
    (invoke callback success world).applied = world.applied ∧
    (invoke callback success world).executed = world.executed ∧
    (invoke callback success world).runs = world.runs := by
  cases callback <;> simp [invoke, completion_calls]

/-- The instruction `apply_profile` sends for one head is the one the spec
describes, and it is sent unless the head resolves to enabled and the mode
the constraint asks for cannot be resolved. -/
theorem apply_profile_head_spec (head : kanshi_head) (c : kanshi_profile_output) :
    (apply_profile_head head c = none ↔
      resolved_enabled head c = true ∧ c.fields.mode = true ∧
        match_mode head c.mode.width c.mode.height c.mode.refresh = none) ∧
    (∀ r, apply_profile_head head c = some r → r = head_instruction head c) := by
  unfold apply_profile_head head_instruction resolved_enabled
  cases he : (if c.fields.enabled = true then c.enabled else head.enabled) with
  | false => simp
  | true =>
    cases hm : c.fields.mode with
    | false =>
      simp only [Bool.not_true, Bool.false_eq_true, if_false, if_true]
      constructor
      · simp
      · intro r hr
        simp only [Option.some.injEq] at hr
        subst hr
        cases c.fields.position <;> cases c.fields.scale <;> cases c.fields.transform <;>
          cases c.fields.adaptive_sync <;> rfl
    | true =>
      cases hmm : match_mode head c.mode.width c.mode.height c.mode.refresh with
      | none => simp
      | some mode =>
        simp only [Bool.not_true, Bool.false_eq_true, if_false, if_true]
        constructor
        · simp
        · intro r hr
          simp only [Option.some.injEq] at hr
          subst hr
          cases c.fields.position <;> cases c.fields.scale <;> cases c.fields.transform <;>
            cases c.fields.adaptive_sync <;> rfl

/-- The loop of `apply_profile`, when it runs to its end without `goto error`,
has sent one instruction per head, in order: for each head the instruction of
the spec for the constraint the array gives it, and the mode asked for an
enabled head was resolved. -/
theorem apply_profile_heads_spec :
    ∀ (hs : List kanshi_head) (i : Nat) (matched : matches_t) (reqs : List head_request),
      apply_profile_heads hs i matched = some (some reqs) →
      reqs.length = hs.length ∧
      ∀ (j : Nat) (head : kanshi_head), hs[j]? = some head →
        ∃ c : ptr kanshi_profile_output, matched[i + j]? = some (some c) ∧
          reqs[j]? = some (head_instruction head c.val) ∧
          (resolved_enabled head c.val = true → c.val.fields.mode = true →
            ∃ mode, match_mode head c.val.mode.width c.val.mode.height c.val.mode.refresh =
              some mode) := by
  intro hs
  induction hs with
  | nil =>
    intro i matched reqs h
    simp only [apply_profile_heads, Option.some.injEq] at h
    subst h
    simp
  | cons head rest ih =>
    intro i matched reqs h
    rw [apply_profile_heads] at h
    cases hmi : matched[i]? with
    | none => simp [hmi] at h
    | some x =>
      cases x with
      | none => simp [hmi] at h
      | some c =>
        simp only [hmi] at h
        cases hreq : apply_profile_head head c.val with
        | none => simp [hreq] at h
        | some req =>
          simp only [hreq] at h
          cases hrest : apply_profile_heads rest (i + 1) matched with
          | none => simp [hrest] at h
          | some y =>
            cases y with
            | none => simp [hrest] at h
            | some reqs1 =>
              simp only [hrest, Option.some.injEq] at h
              subst h
              obtain ⟨hlen, hall⟩ := ih (i + 1) matched reqs1 hrest
              obtain ⟨hnone, hsome⟩ := apply_profile_head_spec head c.val
              refine ⟨by simp [hlen], ?_⟩
              intro j hd hj
              cases j with
              | zero =>
                simp only [List.getElem?_cons_zero, Option.some.injEq] at hj
                subst hj
                refine ⟨c, by simpa using hmi, by simp [hsome req hreq], ?_⟩
                intro hen hmode
                cases hmm : match_mode head c.val.mode.width c.val.mode.height
                    c.val.mode.refresh with
                | some mode => exact ⟨mode, rfl⟩
                | none =>
                  have := hnone.2 ⟨hen, hmode, hmm⟩
                  rw [hreq] at this
                  simp at this
              | succ j =>
                obtain ⟨c', h1, h2, h3⟩ := hall j hd (by simpa using hj)
                have e : i + (j + 1) = i + 1 + j := by omega
                exact ⟨c', by rw [e]; exact h1, by simpa using h2, h3⟩

/-- The loop of `apply_profile` returns when the array has a constraint for
every head. -/
theorem apply_profile_heads_total :
    ∀ (hs : List kanshi_head) (i : Nat) (matched : matches_t),
      (∀ j, j < hs.length → ∃ c : ptr kanshi_profile_output,
        matched[i + j]? = some (some c)) →
      ∃ r, apply_profile_heads hs i matched = some r := by
  intro hs
  induction hs with
  | nil => intro i matched _; exact ⟨_, rfl⟩
  | cons head rest ih =>
    intro i matched hall
    rw [apply_profile_heads]
    obtain ⟨c, hc⟩ := hall 0 (by simp)
    simp only [Nat.add_zero] at hc
    simp only [hc]
    cases apply_profile_head head c.val with
    | none => exact ⟨_, rfl⟩
    | some req =>
      obtain ⟨r, hr⟩ := ih (i + 1) matched (fun j hj => by
        obtain ⟨c', hc'⟩ := hall (j + 1) (by simpa using hj)
        exact ⟨c', by rw [show i + 1 + j = i + (j + 1) by omega]; exact hc'⟩)
      simp only [hr]
      cases r with
      | none => exact ⟨_, rfl⟩
      | some reqs => exact ⟨_, rfl⟩

/-- The three ways `apply_profile` returns: the short-circuit, the failure
that leaves the profile pending, and the submission of one configuration. -/
theorem apply_profile_cases {state : kanshi_state} {profile : ptr kanshi_profile}
    {matched : matches_t} {callback : callback_t} {world : effects} {b : Bool}
    {state' : kanshi_state} {world' : effects}
    (h : apply_profile state profile matched callback world = some (b, state', world')) :
    ((state.pending_profile.map ptr.addr = some profile.addr ∨
        state.current_profile.map ptr.addr = some profile.addr) ∧
      b = true ∧ state' = state ∧ world' = invoke callback true world) ∨
    (¬ (state.pending_profile.map ptr.addr = some profile.addr ∨
        state.current_profile.map ptr.addr = some profile.addr) ∧
      state' = { state with pending_profile := some profile } ∧
      ((b = false ∧ world' = world ∧ apply_profile_heads state.heads 0 matched = some none) ∨
       (b = true ∧ ∃ heads, apply_profile_heads state.heads 0 matched = some (some heads) ∧
          world' = { world with
            applied := world.applied ++
              [{ serial := state.serial,
                 listener_data :=
                   { serial := state.serial, profile := profile, callback := callback },
                 heads := heads }] }))) := by
  unfold apply_profile at h
  split at h
  · rename_i hsc
    simp only [Option.some.injEq, Prod.mk.injEq] at h
    obtain ⟨rfl, rfl, rfl⟩ := h
    exact Or.inl ⟨hsc, rfl, rfl, rfl⟩
  · rename_i hsc
    right
    refine ⟨hsc, ?_⟩
    simp only at h
    cases hl : apply_profile_heads state.heads 0 matched with
    | none => simp [hl] at h
    | some r =>
      cases r with
      | none =>
        simp only [hl, Option.some.injEq, Prod.mk.injEq] at h
        obtain ⟨rfl, rfl, rfl⟩ := h
        exact ⟨rfl, Or.inl ⟨rfl, rfl, rfl⟩⟩
      | some heads =>
        simp only [hl, Option.some.injEq, Prod.mk.injEq] at h
        obtain ⟨rfl, rfl, rfl⟩ := h
        exact ⟨rfl, Or.inr ⟨rfl, heads, rfl, rfl⟩⟩

/-- When the array has a constraint for every head and some head resolved to
enabled has a constraint whose mode cannot be resolved, the loop of
`apply_profile` leaves through `goto error`. -/
theorem apply_profile_heads_error (hs : List kanshi_head) (matched : matches_t)
    (hall : ∀ j, j < hs.length → ∃ c : ptr kanshi_profile_output,
      matched[j]? = some (some c))
    (hbad : ∃ (j : Nat) (head : kanshi_head) (c : ptr kanshi_profile_output),
      hs[j]? = some head ∧ matched[j]? = some (some c) ∧
      resolved_enabled head c.val = true ∧ c.val.fields.mode = true ∧
      match_mode head c.val.mode.width c.val.mode.height c.val.mode.refresh = none) :
    apply_profile_heads hs 0 matched = some none := by
  obtain ⟨r, hr⟩ := apply_profile_heads_total hs 0 matched
    (fun j hj => by simpa using hall j hj)
  cases r with
  | none => exact hr
  | some reqs =>
    exfalso
    obtain ⟨j, head, c, hj, hc, hen, hmode, hmm⟩ := hbad
    obtain ⟨c', hc', _, hres⟩ := (apply_profile_heads_spec hs 0 matched reqs hr).2 j head hj
    simp only [Nat.zero_add] at hc'
    rw [hc] at hc'
    simp only [Option.some.injEq] at hc'
    subst hc'
    obtain ⟨mode, hmode'⟩ := hres hen hmode
    rw [hmm] at hmode'
    simp at hmode'

/-- C7, what the code does. When the profile is neither current nor pending
and some head resolved to enabled has a constraint whose mode cannot be
resolved, `apply_profile` returns false, submits nothing, invokes no
completion and leaves `current_profile` and `serial` alone, but it leaves
`pending_profile` pointing at the profile. In the session `state_1080_only`
a switch to `wants_720p` fails and changes `pending_profile` from none to
that profile, and the same switch made again then returns true and answers
the completion with success although nothing was ever submitted. -/
theorem apply_profile_error_leaves_pending :
    (∀ (state : kanshi_state) (profile : ptr kanshi_profile) (matched : matches_t)
      (callback : callback_t) (world : effects),
      ¬ (state.pending_profile.map ptr.addr = some profile.addr ∨
        state.current_profile.map ptr.addr = some profile.addr) →
      (∀ j, j < state.heads.length → ∃ c : ptr kanshi_profile_output,
        matched[j]? = some (some c)) →
      (∃ (j : Nat) (head : kanshi_head) (c : ptr kanshi_profile_output),
        state.heads[j]? = some head ∧ matched[j]? = some (some c) ∧
        resolved_enabled head c.val = true ∧ c.val.fields.mode = true ∧
        match_mode head c.val.mode.width c.val.mode.height c.val.mode.refresh = none) →
      apply_profile state profile matched callback world =
        some (false, { state with pending_profile := some profile }, world)) ∧
    state_1080_only.pending_profile = none ∧
    kanshi_switch state_1080_only ⟨0, wants_720p⟩ (some 7) [] no_effects =
      some (false, { state_1080_only with pending_profile := some ⟨0, wants_720p⟩ },
        no_effects) ∧
    kanshi_switch { state_1080_only with pending_profile := some ⟨0, wants_720p⟩ }
        ⟨0, wants_720p⟩ (some 7) [] no_effects =
      some (true, { state_1080_only with pending_profile := some ⟨0, wants_720p⟩ },
        { no_effects with done := [(7, true)] }) := by
  refine ⟨?_, rfl, by decide, by decide⟩
  intro state profile matched callback world hsc hall hbad
  have herr := apply_profile_heads_error state.heads matched hall hbad
  unfold apply_profile
  rw [if_neg hsc]
  simp only [herr]

/-- C8. When the profile handed to `apply_profile` is the current or the
pending profile, `apply_profile` returns true, leaves the whole session state
as it is, submits nothing, and invokes the completion exactly once, with
success, when one is given. -/
theorem apply_profile_short_circuit (state : kanshi_state) (profile : ptr kanshi_profile)
    (matched : matches_t) (callback : callback_t) (world : effects)
    (h : state.current_profile.map ptr.addr = some profile.addr ∨
      state.pending_profile.map ptr.addr = some profile.addr) :
    ∃ world', apply_profile state profile matched callback world = some (true, state, world') ∧
      world'.applied = world.applied ∧
      world'.done = world.done ++ completion_calls callback true ∧
      world'.executed = world.executed ∧ world'.runs = world.runs := by
  refine ⟨invoke callback true world, ?_, ?_⟩
  · unfold apply_profile
    rw [if_pos (Or.symm h)]
  · obtain ⟨h1, h2, h3, h4⟩ := invoke_done callback true world
    exact ⟨h2, h1, h3, h4⟩

/-- Witness for C8: `laptop-only` is the current profile of the scenario after
it was applied, and applying it again with the completion `7` answers once
with success. -/
theorem apply_profile_short_circuit_witness :
    ∃ world', apply_profile { scenario_state with current_profile := some ⟨0, laptop_only⟩ }
        ⟨0, laptop_only⟩ scenario_matches (some 7) no_effects =
        some (true, { scenario_state with current_profile := some ⟨0, laptop_only⟩ }, world') ∧
      world'.applied = no_effects.applied ∧
      world'.done = no_effects.done ++ completion_calls (some 7) true ∧
      world'.executed = no_effects.executed ∧ world'.runs = no_effects.runs :=
  apply_profile_short_circuit { scenario_state with current_profile := some ⟨0, laptop_only⟩ }
    ⟨0, laptop_only⟩ scenario_matches (some 7) no_effects (Or.inl rfl)

/-- C9. When `apply_profile` submits a configuration, it submits exactly one;
the configuration carries the serial of the session at the call and the
record (serial, profile, completion) as listener data, and holds one
instruction per head, in model order: for head `i` with the constraint `c`
the array gives it, the instruction the spec describes (`head_instruction`:
"disable" alone when the head resolves to disabled, otherwise "enable" with
exactly the fields `c` marks present), the mode of an enabled head being the
one `match_mode` returns. -/
theorem apply_profile_submission (state : kanshi_state) (profile : ptr kanshi_profile)
    (matched : matches_t) (callback : callback_t) (world : effects) (b : Bool)
    (state' : kanshi_state) (world' : effects)
    (h : apply_profile state profile matched callback world = some (b, state', world'))
    (hsub : world'.applied ≠ world.applied) :
    ∃ heads : List head_request,
      world'.applied = world.applied ++
        [{ serial := state.serial,
           listener_data := { serial := state.serial, profile := profile, callback := callback },
           heads := heads }] ∧
      heads.length = state.heads.length ∧
      ∀ (i : Nat) (head : kanshi_head), state.heads[i]? = some head →
        ∃ c : ptr kanshi_profile_output, matched[i]? = some (some c) ∧
          heads[i]? = some (head_instruction head c.val) ∧
          (resolved_enabled head c.val = false →
            heads[i]? = some (head_request.disable_head head.wlr_head)) ∧
          (resolved_enabled head c.val = true → c.val.fields.mode = true →
            ∃ mode, match_mode head c.val.mode.width c.val.mode.height c.val.mode.refresh =
              some mode) := by
  rcases apply_profile_cases h with ⟨_, _, _, hw⟩ | ⟨_, _, hcase⟩
  · exfalso
    apply hsub
    rw [hw]
    exact (invoke_done callback true world).2.1
  · rcases hcase with ⟨_, hw, _⟩ | ⟨_, heads, hl, hw⟩
    · exact absurd (by rw [hw]) hsub
    · obtain ⟨hlen, hall⟩ := apply_profile_heads_spec state.heads 0 matched heads hl
      refine ⟨heads, by rw [hw], hlen, ?_⟩
      intro i head hi
      obtain ⟨c, h1, h2, h3⟩ := hall i head hi
      simp only [Nat.zero_add] at h1
      refine ⟨c, h1, h2, ?_, h3⟩
      intro hdis
      rw [h2]
      unfold head_instruction
      unfold resolved_enabled at hdis
      simp [hdis]

/-- Witness for C9: `apply_profile` on `desk` in `desk_state` submits the
configuration `desk_configuration`: the first head enabled with the mode of
highest refresh, the position and the scale, the second head disabled
although the mode its constraint carries cannot be resolved. -/
theorem apply_profile_submission_witness :
    ∃ heads : List head_request,
      [desk_configuration] = no_effects.applied ++
        [{ serial := desk_state.serial,
           listener_data :=
             { serial := desk_state.serial, profile := ⟨0, desk⟩, callback := some 9 },
           heads := heads }] ∧
      heads.length = desk_state.heads.length ∧
      ∀ (i : Nat) (head : kanshi_head), desk_state.heads[i]? = some head →
        ∃ c : ptr kanshi_profile_output, desk_matches[i]? = some (some c) ∧
          heads[i]? = some (head_instruction head c.val) ∧
          (resolved_enabled head c.val = false →
            heads[i]? = some (head_request.disable_head head.wlr_head)) ∧
          (resolved_enabled head c.val = true → c.val.fields.mode = true →
            ∃ mode, match_mode head c.val.mode.width c.val.mode.height c.val.mode.refresh =
              some mode) :=
  apply_profile_submission desk_state ⟨0, desk⟩ desk_matches (some 9) no_effects true
    { desk_state with pending_profile := some ⟨0, desk⟩ }
    { no_effects with applied := [desk_configuration] } (by decide) (by decide)

/-! ### Claim C10: `config_handle_cancelled` -/

/-- `apply_profile` returns when the array has a constraint for every head. -/
theorem apply_profile_total (state : kanshi_state) (profile : ptr kanshi_profile)
    (matched : matches_t) (callback : callback_t) (world : effects)
    (hall : ∀ j, j < state.heads.length → ∃ c : ptr kanshi_profile_output,
      matched[j]? = some (some c)) :
    ∃ r, apply_profile state profile matched callback world = some r := by
  unfold apply_profile
  split
  · exact ⟨_, rfl⟩
  · obtain ⟨r, hr⟩ := apply_profile_heads_total state.heads 0 matched
      (fun j hj => by simpa using hall j hj)
    simp only [hr]
    cases r with
    | none => exact ⟨_, rfl⟩
    | some reqs => exact ⟨_, rfl⟩

/-- Under the preconditions of the matcher `match_and_apply` returns. -/
theorem match_and_apply_total (state : kanshi_state) (callback : callback_t)
    (matched : matches_t) (world : effects)
    (hok : ∀ h ∈ state.heads, head_ok h = true) (hlen : state.heads.length ≤ HEADS_MAX) :
    ∃ r, match_and_apply state callback matched world = some r := by
  unfold match_and_apply
  simp only [if_pos hlen]
  have hcur : ∃ c, (match state.current_profile with
      | none => some (false, matched)
      | some profile => match_profile state profile.val matched) = some c := by
    cases state.current_profile with
    | none => exact ⟨_, rfl⟩
    | some p => exact match_profile_total state p.val matched hok hlen
  obtain ⟨c, hc⟩ := hcur
  rw [hc]
  obtain ⟨b, m1⟩ := c
  cases b with
  | true => exact ⟨_, rfl⟩
  | false =>
    simp only
    obtain ⟨r, hr⟩ := match_profiles_total state hok hlen state.config.profiles 0 m1
    have hr' : match_best state m1 = some r := hr
    obtain ⟨q, m2⟩ := r
    rw [hr']
    cases q with
    | none => exact ⟨_, rfl⟩
    | some profile =>
      simp only
      obtain ⟨_, _, _, ⟨m3, hm⟩, _⟩ := (match_profiles_spec state _ 0 m1 _ m2 hr).1 profile rfl
      exact apply_profile_total state profile m2 callback _ (match_profile_perfect hm).2.2

/-- What a run of `match_and_apply` does: it is counted once, leaves the
serial alone, invokes no completion when none is given, and submits at most
one configuration, created with the serial of the session and carrying the
completion it was called with. -/
theorem match_and_apply_effects {state : kanshi_state} {callback : callback_t}
    {matched : matches_t} {world : effects} {b : Bool} {state' : kanshi_state}
    {world' : effects}
    (h : match_and_apply state callback matched world = some (b, state', world')) :
    world'.runs = world.runs + 1 ∧ state'.serial = state.serial ∧
    (callback = none → world'.done = world.done) ∧
    (world'.applied = world.applied ∨
      ∃ (profile : ptr kanshi_profile) (heads : List head_request),
        world'.applied = world.applied ++
          [{ serial := state.serial,
             listener_data :=
               { serial := state.serial, profile := profile, callback := callback },
             heads := heads }]) := by
  unfold match_and_apply at h
  split at h
  · simp only at h
    split at h
    · simp at h
    · simp only [Option.some.injEq, Prod.mk.injEq] at h
      obtain ⟨_, rfl, rfl⟩ := h
      obtain ⟨h1, h2, _, h4⟩ := invoke_done callback true { world with runs := world.runs + 1 }
      refine ⟨h4, rfl, ?_, Or.inl h2⟩
      intro hcb
      rw [h1, hcb]
      simp [completion_calls]
    · split at h
      · simp at h
      · rename_i profile m2 _
        rcases apply_profile_cases h with ⟨_, _, hs, hw⟩ | ⟨_, hs, hcase⟩
        · obtain ⟨h1, h2, _, h4⟩ :=
            invoke_done callback true { world with runs := world.runs + 1 }
          rw [hw, hs]
          refine ⟨h4, rfl, ?_, Or.inl h2⟩
          intro hcb
          rw [h1, hcb]
          simp [completion_calls]
        · rcases hcase with ⟨_, hw, _⟩ | ⟨_, heads, _, hw⟩
          · rw [hw, hs]
            exact ⟨rfl, rfl, fun _ => rfl, Or.inl rfl⟩
          · rw [hw, hs]
            exact ⟨rfl, rfl, fun _ => rfl, Or.inr ⟨profile, heads, rfl⟩⟩
      · simp only [Option.some.injEq, Prod.mk.injEq] at h
        obtain ⟨_, rfl, rfl⟩ := h
        exact ⟨rfl, rfl, fun _ => rfl, Or.inl rfl⟩
  · simp at h

/-- Clearing the pending profile touches neither the serial nor the heads. -/
theorem clear_pending_serial (pending : kanshi_pending_profile) (state : kanshi_state) :
    (clear_pending pending state).serial = state.serial ∧
    (clear_pending pending state).heads = state.heads := by
  unfold clear_pending
  split <;> exact ⟨rfl, rfl⟩

/-- C10. On a cancelled outcome of a transaction built at serial `s`, the handler
returns under the preconditions of the matcher, and whenever it returns: the
completion of the transaction, when given, has been invoked exactly once,
with failure, and no other completion has; `match_and_apply` has been run
once when the session serial differs from `s` and not at all when it equals
`s`; the serial is unchanged; at most one configuration has been submitted,
and none without a run. A configuration submitted by the retry was built at
the serial of the session and has no completion, so when it is cancelled in
turn in any later state whose serial is still that one, the handler returns
with no run of `match_and_apply`, no submission and no completion call. -/
theorem config_handle_cancelled_retry (pending : kanshi_pending_profile)
    (state : kanshi_state) (matched : matches_t) (world : effects) :
    ((∀ h ∈ state.heads, head_ok h = true) → state.heads.length ≤ HEADS_MAX →
      ∃ r, config_handle_cancelled pending state matched world = some r) ∧
    (∀ (state' : kanshi_state) (world' : effects),
      config_handle_cancelled pending state matched world = some (state', world') →
      world'.done = world.done ++ completion_calls pending.callback false ∧
      world'.runs = world.runs + (if pending.serial ≠ state.serial then 1 else 0) ∧
      state'.serial = state.serial ∧
      ∃ new : List zwlr_output_configuration_v1,
        world'.applied = world.applied ++ new ∧ new.length ≤ 1 ∧
        (pending.serial = state.serial → new = []) ∧
        ∀ cfg ∈ new, cfg.serial = state.serial ∧
          cfg.listener_data.serial = state.serial ∧ cfg.listener_data.callback = none ∧
          ∀ (state2 : kanshi_state) (matched2 : matches_t) (world2 : effects),
            state2.serial = state'.serial →
            ∃ state3 world3,
              config_handle_cancelled cfg.listener_data state2 matched2 world2 =
                some (state3, world3) ∧
              world3.runs = world2.runs ∧ world3.applied = world2.applied ∧
              world3.done = world2.done) := by
  have hstable : ∀ (p : kanshi_pending_profile) (state2 : kanshi_state) (matched2 : matches_t)
      (world2 : effects), p.serial = state2.serial → p.callback = none →
      ∃ state3 world3, config_handle_cancelled p state2 matched2 world2 =
        some (state3, world3) ∧
      world3.runs = world2.runs ∧ world3.applied = world2.applied ∧
      world3.done = world2.done := by
    intro p state2 matched2 world2 hs hcb
    refine ⟨clear_pending p state2, world2, ?_, rfl, rfl, rfl⟩
    unfold config_handle_cancelled
    simp only [(clear_pending_serial p state2).1, hs, ne_eq, not_true_eq_false, if_false, hcb]
    rfl
  constructor
  · intro hok hlen
    unfold config_handle_cancelled
    simp only [(clear_pending_serial pending state).1]
    by_cases hser : pending.serial = state.serial
    · simp only [hser, ne_eq, not_true_eq_false, if_false]
      exact ⟨_, rfl⟩
    · simp only [ne_eq, hser, not_false_eq_true, if_true]
      obtain ⟨r, hr⟩ := match_and_apply_total (clear_pending pending state) none matched world
        (by rw [(clear_pending_serial pending state).2]; exact hok)
        (by rw [(clear_pending_serial pending state).2]; exact hlen)
      obtain ⟨b, s2, w2⟩ := r
      simp only [hr]
      exact ⟨_, rfl⟩
  · intro state' world' h
    unfold config_handle_cancelled at h
    simp only [(clear_pending_serial pending state).1] at h
    by_cases hser : pending.serial = state.serial
    · simp only [hser, ne_eq, not_true_eq_false, if_false, Option.some.injEq,
        Prod.mk.injEq] at h
      obtain ⟨rfl, rfl⟩ := h
      obtain ⟨h1, h2, _, h4⟩ := invoke_done pending.callback false world
      refine ⟨h1, by simp [hser, h4], (clear_pending_serial pending state).1, [], ?_, ?_, ?_, ?_⟩
      · simp [h2]
      · simp
      · intro _; rfl
      · intro cfg hcfg
        simp at hcfg
    · simp only [ne_eq, hser, not_false_eq_true, if_true] at h
      cases hr : match_and_apply (clear_pending pending state) none matched world with
      | none => simp [hr] at h
      | some r =>
        obtain ⟨b, s2, w2⟩ := r
        simp only [hr, Option.some.injEq, Prod.mk.injEq] at h
        obtain ⟨rfl, rfl⟩ := h
        obtain ⟨e1, e2, e3, e4⟩ := match_and_apply_effects hr
        rw [(clear_pending_serial pending state).1] at e2 e4
        obtain ⟨h1, h2, _, h4⟩ := invoke_done pending.callback false w2
        refine ⟨by rw [h1, e3 rfl], by simp [hser, h4, e1], e2, ?_⟩
        rcases e4 with e4 | ⟨profile, heads, e4⟩
        · refine ⟨[], by simp [h2, e4], by simp, fun _ => rfl, ?_⟩
          intro cfg hcfg
          simp at hcfg
        · refine ⟨_, by rw [h2, e4], by simp, fun hs => absurd hs hser, ?_⟩
          intro cfg hcfg
          simp only [List.mem_singleton] at hcfg
          subst hcfg
          refine ⟨rfl, rfl, rfl, ?_⟩
          intro state2 matched2 world2 hs2
          exact hstable _ state2 matched2 world2 (by rw [hs2, e2]) rfl

/-- Witness for C10: the transaction for `laptop-only` built at serial 1 is
cancelled at serial 2. The handler returns, has answered the completion `7`
once with failure, has run `match_and_apply` once and submitted one
configuration at serial 2; that one cancelled in turn at serial 2 runs
nothing. -/
theorem config_handle_cancelled_retry_witness :
    (∃ r, config_handle_cancelled first_pending raced_state [] raced_world = some r) ∧
    config_handle_cancelled first_pending raced_state [] raced_world =
      some (raced_state, retried_world) ∧
    retried_world.done = raced_world.done ++ completion_calls first_pending.callback false ∧
    retried_world.runs =
      raced_world.runs + (if first_pending.serial ≠ raced_state.serial then 1 else 0) ∧
    (∃ state3 world3,
      config_handle_cancelled retry_pending raced_state [] retried_world =
        some (state3, world3) ∧
      world3.runs = retried_world.runs ∧ world3.applied = retried_world.applied ∧
      world3.done = retried_world.done) :=
  have hr : config_handle_cancelled first_pending raced_state [] raced_world =
      some (raced_state, retried_world) := by decide
  have h := config_handle_cancelled_retry first_pending raced_state [] raced_world
  have hnew := (h.2 _ _ hr).2.2.2
  ⟨h.1 (by decide) (by decide), hr, (h.2 _ _ hr).1, (h.2 _ _ hr).2.1, by
    obtain ⟨new, hnew1, _, _, hnew4⟩ := hnew
    have hmem : retry_configuration ∈ new := by
      have e : new = [retry_configuration] := List.append_cancel_left hnew1.symm
      rw [e]
      exact List.mem_singleton.2 rfl
    exact (hnew4 _ hmem).2.2.2 raced_state [] retried_world rfl⟩

/-! ### Claim C11: `config_handle_succeeded` -/

/-- C11. On a succeeded outcome of the transaction of a record for profile `p`,
in every session state: afterwards `current_profile` is `p`;
`pending_profile` is none when it pointed at `p` and is unchanged otherwise;
the serial, the heads and the store are unchanged; the completion of the
record, when given, has been invoked exactly once, with success, and no other
completion has; the commands of `p` have been run in order and nothing has
been submitted. -/
theorem config_handle_succeeded_spec (pending : kanshi_pending_profile)
    (state : kanshi_state) (world : effects) :
    (config_handle_succeeded pending state world).1.current_profile = some pending.profile ∧
    (config_handle_succeeded pending state world).1.pending_profile =
      (if state.pending_profile.map ptr.addr = some pending.profile.addr then none
       else state.pending_profile) ∧
    (config_handle_succeeded pending state world).1.serial = state.serial ∧
    (config_handle_succeeded pending state world).1.heads = state.heads ∧
    (config_handle_succeeded pending state world).1.config = state.config ∧
    (config_handle_succeeded pending state world).2.done =
      world.done ++ completion_calls pending.callback true ∧
    (config_handle_succeeded pending state world).2.applied = world.applied ∧
    (config_handle_succeeded pending state world).2.executed =
      world.executed ++ pending.profile.val.commands ∧
    (config_handle_succeeded pending state world).2.runs = world.runs := by
  obtain ⟨h1, h2, h3, h4⟩ := invoke_done pending.callback true
    { world with executed := world.executed ++ pending.profile.val.commands }
  unfold config_handle_succeeded
  refine ⟨?_, ?_, ?_, ?_, ?_, h1, h2, h3, h4⟩
  all_goals
    unfold clear_pending
    by_cases hp : state.pending_profile.map ptr.addr = some pending.profile.addr
    · simp [hp]
    · have hp' : ¬ (some pending.profile.addr = state.pending_profile.map ptr.addr) :=
        fun h => hp h.symm
      simp [hp, hp']

/-! ### Claim C12: `match_and_apply` keeps the current profile -/

/-- A successful `match_profile` implies at most `HEADS_MAX` heads. -/
theorem heads_le_of_match_profile {state : kanshi_state} {profile : kanshi_profile}
    {m0 m : matches_t} (h : match_profile state profile m0 = some (true, m)) :
    state.heads.length ≤ HEADS_MAX := by
  obtain ⟨_, inv, _⟩ := match_profile_perfect h
  have := List.countP_le_length Option.isSome (l := m)
  rw [inv.count, inv.len] at this
  exact this

/-- C12. When `current_profile` is set and `match_profile` succeeds for it
against the present heads, `match_and_apply` returns true, leaves the whole
session state as it is and submits nothing, whatever the store holds; the
completion, when given, is invoked once with success. A second run in the
state it leaves does the same, so no configuration is submitted by either. -/
theorem match_and_apply_keeps_current (state : kanshi_state) (current : ptr kanshi_profile)
    (callback : callback_t) (matched m0 m : matches_t) (world : effects)
    (hcur : state.current_profile = some current)
    (hmatch : match_profile state current.val m0 = some (true, m)) :
    ∃ world', match_and_apply state callback matched world = some (true, state, world') ∧
      world'.applied = world.applied ∧
      world'.done = world.done ++ completion_calls callback true ∧
      world'.executed = world.executed ∧ world'.runs = world.runs + 1 ∧
      ∀ (callback2 : callback_t) (matched2 : matches_t),
        ∃ world'', match_and_apply state callback2 matched2 world' =
            some (true, state, world'') ∧
          world''.applied = world.applied := by
  have hlen := heads_le_of_match_profile hmatch
  have key : ∀ (cb : callback_t) (mm : matches_t) (w : effects),
      match_and_apply state cb mm w =
        some (true, state, invoke cb true { w with runs := w.runs + 1 }) := by
    intro cb mm w
    unfold match_and_apply
    simp only [if_pos hlen, hcur, (match_profile_indep hmatch mm).1 rfl]
  refine ⟨_, key callback matched world, ?_⟩
  obtain ⟨h1, h2, h3, h4⟩ := invoke_done callback true { world with runs := world.runs + 1 }
  refine ⟨h2, h1, h3, h4, ?_⟩
  intro callback2 matched2
  refine ⟨_, key callback2 matched2 _, ?_⟩
  rw [(invoke_done callback2 true _).2.1]
  exact h2

/-- Witness for C12: in the scenario with `docked` current, `laptop-only` is
declared earlier and also matches (`match` would return it), yet
`match_and_apply` keeps `docked` and submits nothing. -/
theorem match_and_apply_keeps_current_witness :
    match_best docked_state [] = some (some ⟨0, laptop_only⟩, scenario_matches) ∧
    ∃ world', match_and_apply docked_state (some 7) [] no_effects =
        some (true, docked_state, world') ∧
      world'.applied = no_effects.applied ∧
      world'.done = no_effects.done ++ completion_calls (some 7) true ∧
      world'.executed = no_effects.executed ∧ world'.runs = no_effects.runs + 1 ∧
      ∀ (callback2 : callback_t) (matched2 : matches_t),
        ∃ world'', match_and_apply docked_state callback2 matched2 world' =
            some (true, docked_state, world'') ∧
          world''.applied = no_effects.applied :=
  ⟨by decide,
   match_and_apply_keeps_current docked_state ⟨1, docked⟩ (some 7) [] []
     ((match_profile docked_state docked []).get (by decide)).2 no_effects rfl (by decide)⟩

/-! ### Claim C13: `kanshi_switch` -/

/-- `match_profile` reads the heads of the session and nothing else of it. -/
theorem match_profile_config (state : kanshi_state) (config2 : kanshi_config)
    (profile : kanshi_profile) (matched : matches_t) :
    match_profile { state with config := config2 } profile matched =
      match_profile state profile matched := rfl

/-- `apply_profile` does not read the store: with another store it returns the
same value and effects, and the same state up to the store. -/
theorem apply_profile_config (state : kanshi_state) (config2 : kanshi_config)
    (profile : ptr kanshi_profile) (matched : matches_t) (callback : callback_t)
    (world : effects) :
    apply_profile { state with config := config2 } profile matched callback world =
      (apply_profile state profile matched callback world).map
        fun r => (r.1, { r.2.1 with config := config2 }, r.2.2) := by
  unfold apply_profile
  by_cases hsc : state.pending_profile.map ptr.addr = some profile.addr ∨
      state.current_profile.map ptr.addr = some profile.addr
  · rw [if_pos hsc, if_pos hsc]
    rfl
  · rw [if_neg hsc, if_neg hsc]
    simp only
    cases apply_profile_heads state.heads 0 matched with
    | none => rfl
    | some r =>
      cases r with
      | none => rfl
      | some heads => rfl

/-- C13. `kanshi_switch` consults the target profile only. It returns under the
preconditions of the matcher. When `match_profile` fails for the target it
returns false and leaves the session state and the effects as they are:
nothing submitted, no completion invoked. When `match_profile` succeeds its
result is that of `apply_profile` on the target with the array
`match_profile` left. The store is not read: with any other store the result
is the same. In the scenario a switch to a profile with one constraint fails
although `laptop-only` of the store matches. -/
theorem kanshi_switch_only_target (state : kanshi_state) (profile : ptr kanshi_profile)
    (callback : callback_t) (matched : matches_t) (world : effects) :
    ((∀ h ∈ state.heads, head_ok h = true) → state.heads.length ≤ HEADS_MAX →
      ∃ r, kanshi_switch state profile callback matched world = some r) ∧
    (∀ m, match_profile state profile.val matched = some (false, m) →
      kanshi_switch state profile callback matched world = some (false, state, world)) ∧
    (∀ m, match_profile state profile.val matched = some (true, m) →
      kanshi_switch state profile callback matched world =
        apply_profile state profile m callback world) ∧
    (∀ config2 : kanshi_config,
      kanshi_switch { state with config := config2 } profile callback matched world =
        (kanshi_switch state profile callback matched world).map
          fun r => (r.1, { r.2.1 with config := config2 }, r.2.2)) ∧
    (match_best scenario_state [] = some (some ⟨0, laptop_only⟩, scenario_matches) ∧
      kanshi_switch scenario_state ⟨2, single_output⟩ (some 7) [] no_effects =
        some (false, scenario_state, no_effects)) := by
  refine ⟨?_, ?_, ?_, ?_, by decide, by decide⟩
  · intro hok hlen
    unfold kanshi_switch
    obtain ⟨r, hr⟩ := match_profile_total state profile.val matched hok hlen
    obtain ⟨b, m⟩ := r
    rw [hr]
    cases b with
    | false => exact ⟨_, rfl⟩
    | true =>
      exact apply_profile_total state profile m callback world (match_profile_perfect hr).2.2
  · intro m hm
    unfold kanshi_switch
    rw [hm]
  · intro m hm
    unfold kanshi_switch
    rw [hm]
  · intro config2
    unfold kanshi_switch
    rw [match_profile_config]
    cases match_profile state profile.val matched with
    | none => rfl
    | some r =>
      obtain ⟨b, m⟩ := r
      cases b with
      | false => rfl
      | true => exact apply_profile_config state config2 profile m callback world

/-- Witness for C13: the scenario satisfies the preconditions, the switch to
the one-constraint profile returns, and `match_profile` fails for it. -/
theorem kanshi_switch_only_target_witness :
    (∃ r, kanshi_switch scenario_state ⟨2, single_output⟩ (some 7) [] no_effects = some r) ∧
    kanshi_switch scenario_state ⟨2, single_output⟩ (some 7) [] no_effects =
      some (false, scenario_state, no_effects) :=
  ⟨(kanshi_switch_only_target scenario_state ⟨2, single_output⟩ (some 7) [] no_effects).1
      (by decide) (by decide),
   (kanshi_switch_only_target scenario_state ⟨2, single_output⟩ (some 7) [] no_effects).2.1
      [] (by decide)⟩

/-! ### Claim C14: the order in which `match_profile` tries the constraints -/

/-- The outer loop of `match_profile` over a list in two parts is the loop over
the first part followed, when that succeeds, by the loop over the second. -/
theorem match_profile_outputs_append (heads : List kanshi_head) :
    ∀ (pre rest : List kanshi_profile_output) (k : Nat) (m : matches_t),
      match_profile_outputs heads (pre ++ rest) k m =
        match match_profile_outputs heads pre k m with
        | none => none
        | some (false, m1) => some (false, m1)
        | some (true, m1) => match_profile_outputs heads rest (k + pre.length) m1 := by
  intro pre
  induction pre with
  | nil => intro rest k m; simp [match_profile_outputs]
  | cons c pre ih =>
    intro rest k m
    simp only [List.cons_append, match_profile_outputs, List.length_cons]
    cases match_profile_heads ⟨k, c⟩ heads 0 m with
    | none => rfl
    | some r =>
      obtain ⟨b, m1⟩ := r
      cases b with
      | false => rfl
      | true =>
        simp only
        have e := ih rest (k + 1) m1
        rw [show k + 1 + pre.length = k + (pre.length + 1) by omega] at e
        exact e

/-- A head claimed when the outer loop of `match_profile` starts is still
claimed, by the same output, when the loop succeeds. -/
theorem match_profile_outputs_keeps (heads : List kanshi_head) :
    ∀ (rest : List kanshi_profile_output) (k : Nat) (m m' : matches_t),
      match_profile_outputs heads rest k m = some (true, m') →
      ∀ (i : Nat) (p : ptr kanshi_profile_output), m[i]? = some (some p) →
        m'[i]? = some (some p) := by
  intro rest
  induction rest with
  | nil =>
    intro k m m' h i p hp
    simp only [match_profile_outputs, Option.some.injEq, Prod.mk.injEq, true_and] at h
    rw [← h]
    exact hp
  | cons c rest ih =>
    intro k m m' h i p hp
    rw [match_profile_outputs] at h
    cases hres : match_profile_heads ⟨k, c⟩ heads 0 m with
    | none => simp [hres] at h
    | some r =>
      obtain ⟨b, m1⟩ := r
      cases b with
      | false => simp [hres] at h
      | true =>
        simp only [hres] at h
        obtain ⟨j, hd, hj, hm, he, hset, _⟩ :=
          (match_profile_heads_spec ⟨k, c⟩ heads 0 m true m1 hres).2 rfl
        simp only [Nat.zero_add] at hm hset
        apply ih (k + 1) m1 m' h i p
        rw [hset, List.getElem?_set]
        split
        · rename_i hji
          subst hji
          rw [hm] at hp
          simp at hp
        · exact hp

/-- The state of `match_profile` when it reaches the constraint at position
`k` of a profile it ends up matching: the constraints before `k` have been
processed successfully, each holds a head, which it keeps to the end, and the
constraint `k` then claims a head that was unclaimed. -/
theorem match_profile_reaches {state : kanshi_state} {profile : kanshi_profile}
    {m0 m : matches_t} (h : match_profile state profile m0 = some (true, m))
    {k : Nat} {c : kanshi_profile_output} (hk : profile.outputs[k]? = some c) :
    ∃ (m1 : matches_t) (i : Nat),
      match_profile_outputs state.heads (profile.outputs.take k) 0
        (List.replicate HEADS_MAX none) = some (true, m1) ∧
      (∀ j, j < k → ∃ (i' : Nat) (p : ptr kanshi_profile_output),
        m1[i']? = some (some p) ∧ p.addr = j ∧ m[i']? = some (some p)) ∧
      m1[i]? = some none ∧ m[i]? = some (some ⟨k, c⟩) := by
  unfold match_profile at h
  split at h
  · simp at h
  · obtain ⟨hklt, hkc⟩ := List.getElem?_eq_some.1 hk
    have hsplit : profile.outputs =
        profile.outputs.take k ++ c :: profile.outputs.drop (k + 1) := by
      rw [← hkc, ← List.drop_eq_getElem_cons hklt, List.take_append_drop]
    have htl : (profile.outputs.take k).length = k := by
      rw [List.length_take]
      omega
    rw [hsplit, match_profile_outputs_append] at h
    cases hpre : match_profile_outputs state.heads (profile.outputs.take k) 0
        (List.replicate HEADS_MAX none) with
    | none => simp [hpre] at h
    | some r =>
      obtain ⟨b, m1⟩ := r
      cases b with
      | false => simp [hpre] at h
      | true =>
        simp only [hpre, htl, Nat.zero_add] at h
        rw [match_profile_outputs] at h
        cases hres : match_profile_heads ⟨k, c⟩ state.heads 0 m1 with
        | none => simp [hres] at h
        | some r2 =>
          obtain ⟨b2, m2⟩ := r2
          cases b2 with
          | false => simp [hres] at h
          | true =>
            simp only [hres] at h
            obtain ⟨i, hd, hi, hm, he, hset, _⟩ :=
              (match_profile_heads_spec ⟨k, c⟩ state.heads 0 m1 true m2 hres).2 rfl
            simp only [Nat.zero_add] at hm hset
            have hilt : i < m1.length := by
              by_contra hcon
              rw [List.getElem?_eq_none (by omega)] at hm
              simp at hm
            have hkeep := match_profile_outputs_keeps state.heads _ (k + 1) m2 m h
            have inv := @match_profile_outputs_inv state.heads (profile.outputs.take k)
              (profile.outputs.take k) 0 _ m1 (by simp)
              (matching_inv_init state.heads _) hpre
            rw [Nat.zero_add, htl] at inv
            refine ⟨m1, i, rfl, ?_, hm, ?_⟩
            · intro j hj
              obtain ⟨i', p, hp, hpa⟩ := inv.surj j hj
              refine ⟨i', p, hp, hpa, ?_⟩
              apply hkeep
              rw [hset, List.getElem?_set]
              split
              · rename_i hii
                subst hii
                rw [hm] at hp
                simp at hp
              · exact hp
            · apply hkeep
              rw [hset, List.getElem?_set]
              simp [hilt]

/-- The stored list holds the declared constraints, each as often as it is
declared. -/
theorem store_outputs_perm (declared : List kanshi_profile_output) :
    (store_outputs declared).Perm declared := by
  unfold store_outputs
  induction declared with
  | nil => simp
  | cons c l ih =>
    by_cases hc : c.name = "*"
    · have h1 : (c.name != "*") = false := by simp [hc]
      have h2 : (c.name == "*") = true := by simp [hc]
      simp only [List.filter_cons, h1, h2, if_true, Bool.false_eq_true, if_false]
      exact List.perm_middle.trans (List.Perm.cons c ih)
    · have h1 : (c.name != "*") = true := by simp [hc]
      have h2 : (c.name == "*") = false := by simp [hc]
      simp only [List.filter_cons, h1, h2, if_true, Bool.false_eq_true, if_false,
        List.cons_append]
      exact List.Perm.cons c ih

/-- In the stored list every wildcard comes after every other constraint. -/
theorem store_outputs_wildcards_last (declared : List kanshi_profile_output) :
    wildcards_last (store_outputs declared) := by
  intro j k d c hj hk hd hc
  unfold store_outputs at hj hk
  have hjlt : j < (declared.filter (fun c => c.name != "*")).length := by
    by_contra hcon
    rw [List.getElem?_append_right (by omega)] at hj
    have hmem := List.getElem?_mem hj
    simp only [List.mem_filter, beq_iff_eq] at hmem
    exact hd hmem.2
  have hkge : (declared.filter (fun c => c.name != "*")).length ≤ k := by
    by_contra hcon
    rw [List.getElem?_append_left (by omega)] at hk
    have hmem := List.getElem?_mem hk
    simp only [List.mem_filter, bne_iff_ne, ne_eq] at hmem
    exact hmem.2 hc
  omega

/-- C14. The parser stores the constraints of a profile with the wildcards
after the others, wherever they are declared, and `match_profile` tries the
stored constraints in order. So for every declared list, every list that
stores the same constraints with the wildcards last (as `store_outputs`
does) and every head list: `match_profile` returns (for heads with a name,
at most `HEADS_MAX` of them), and when it matches, a wildcard claims a
head, unclaimed until then, only once every constraint that is not a
wildcard holds a head, which it keeps. The profile declared as
`[wildcard, exact("A")]` matches the heads `A`, `B`, with `A` given to the
exact constraint and `B` to the wildcard. -/
theorem match_profile_wildcards_last :
    (∀ (declared : List kanshi_profile_output),
      (store_outputs declared).Perm declared ∧ wildcards_last (store_outputs declared)) ∧
    (∀ (state : kanshi_state) (profile : kanshi_profile)
        (declared : List kanshi_profile_output) (m0 : matches_t),
      profile.outputs.Perm declared → wildcards_last profile.outputs →
      ((∀ h ∈ state.heads, head_ok h = true) → state.heads.length ≤ HEADS_MAX →
        ∃ r, match_profile state profile m0 = some r) ∧
      ∀ (m : matches_t), match_profile state profile m0 = some (true, m) →
        ∀ (k : Nat) (c : kanshi_profile_output),
          profile.outputs[k]? = some c → c.name = "*" →
          ∃ (m1 : matches_t) (i : Nat),
            match_profile_outputs state.heads (profile.outputs.take k) 0
              (List.replicate HEADS_MAX none) = some (true, m1) ∧
            m1[i]? = some none ∧ m[i]? = some (some ⟨k, c⟩) ∧
            (∀ (j : Nat) (d : kanshi_profile_output),
              profile.outputs[j]? = some d → d.name ≠ "*" →
              j < k ∧ ∃ (i' : Nat), m1[i']? = some (some ⟨j, d⟩) ∧
                m[i']? = some (some ⟨j, d⟩)) ∧
            ∀ (d : kanshi_profile_output), d ∈ declared → d.name ≠ "*" →
              ∃ (i' j : Nat), j < k ∧ m1[i']? = some (some ⟨j, d⟩) ∧
                m[i']? = some (some ⟨j, d⟩)) ∧
    (stored_wildcard_then_exact.outputs = [output_named "A", output_named "*"] ∧
      ∀ m0, match_profile heads_a_b stored_wildcard_then_exact m0 =
        some (true, two_matches ⟨0, output_named "A"⟩ ⟨1, output_named "*"⟩)) := by
  refine ⟨fun declared => ⟨store_outputs_perm declared, store_outputs_wildcards_last declared⟩,
    ?_, by decide, ?_⟩
  · intro state profile declared m0 hperm hwl
    refine ⟨fun hok hlen => match_profile_total state profile m0 hok hlen, ?_⟩
    intro m h k c hk hc
    obtain ⟨m1, i, h1, h2, h3, h4⟩ := match_profile_reaches h hk
    have hpos : ∀ (j : Nat) (d : kanshi_profile_output),
        profile.outputs[j]? = some d → d.name ≠ "*" →
        j < k ∧ ∃ (i' : Nat), m1[i']? = some (some ⟨j, d⟩) ∧
          m[i']? = some (some ⟨j, d⟩) := by
      intro j d hj hd
      have hjk : j < k := hwl j k d c hj hk hd hc
      obtain ⟨i', p, hp1, hpa, hp2⟩ := h2 j hjk
      have hval := ((match_profile_perfect h).2.1.sound i' p hp2).2.1
      rw [hpa, hj] at hval
      have hp : p = ⟨j, d⟩ := by
        cases p
        simp only [Option.some.injEq] at hval
        simp only at hpa
        rw [hpa, hval]
      rw [hp] at hp1 hp2
      exact ⟨hjk, i', hp1, hp2⟩
    refine ⟨m1, i, h1, h3, h4, hpos, ?_⟩
    intro d hd hname
    obtain ⟨j, hjlt, hjd⟩ := List.getElem_of_mem (hperm.mem_iff.2 hd)
    obtain ⟨hjk, i', hp1, hp2⟩ := hpos j d (by rw [List.getElem?_eq_getElem hjlt, hjd]) hname
    exact ⟨i', j, hjk, hp1, hp2⟩
  · intro m0
    have h : match_profile heads_a_b stored_wildcard_then_exact [] =
        some (true, two_matches ⟨0, output_named "A"⟩ ⟨1, output_named "*"⟩) := by decide
    exact (match_profile_indep h m0).1 rfl

/-- Witness for C14: the declaration `[wildcard, exact("A")]` against the heads
`A`, `B`; the wildcard is stored at position 1 and, when it is reached, the
exact constraint holds the head `A`. -/
theorem match_profile_wildcards_last_witness :
    stored_wildcard_then_exact.outputs.Perm wildcard_then_exact ∧
    wildcards_last stored_wildcard_then_exact.outputs ∧
    match_profile heads_a_b stored_wildcard_then_exact [] =
      some (true, two_matches ⟨0, output_named "A"⟩ ⟨1, output_named "*"⟩) ∧
    stored_wildcard_then_exact.outputs[1]? = some (output_named "*") ∧
    (output_named "*").name = "*" ∧
    ∃ (m1 : matches_t) (i : Nat),
      match_profile_outputs heads_a_b.heads (stored_wildcard_then_exact.outputs.take 1) 0
        (List.replicate HEADS_MAX none) = some (true, m1) ∧
      m1[i]? = some none ∧
      (two_matches ⟨0, output_named "A"⟩ ⟨1, output_named "*"⟩)[i]? =
        some (some ⟨1, output_named "*"⟩) ∧
      (∀ (j : Nat) (d : kanshi_profile_output),
        stored_wildcard_then_exact.outputs[j]? = some d → d.name ≠ "*" →
        j < 1 ∧ ∃ (i' : Nat), m1[i']? = some (some ⟨j, d⟩) ∧
          (two_matches ⟨0, output_named "A"⟩ ⟨1, output_named "*"⟩)[i']? =
            some (some ⟨j, d⟩)) ∧
      ∀ (d : kanshi_profile_output), d ∈ wildcard_then_exact → d.name ≠ "*" →
        ∃ (i' j : Nat), j < 1 ∧ m1[i']? = some (some ⟨j, d⟩) ∧
          (two_matches ⟨0, output_named "A"⟩ ⟨1, output_named "*"⟩)[i']? =
            some (some ⟨j, d⟩) :=
  ⟨(match_profile_wildcards_last.1 wildcard_then_exact).1,
   (match_profile_wildcards_last.1 wildcard_then_exact).2, by decide, by decide, by decide,
   (match_profile_wildcards_last.2.1 heads_a_b stored_wildcard_then_exact wildcard_then_exact []
     (match_profile_wildcards_last.1 wildcard_then_exact).1
     (match_profile_wildcards_last.1 wildcard_then_exact).2).2
     (two_matches ⟨0, output_named "A"⟩ ⟨1, output_named "*"⟩) (by decide) 1
     (output_named "*") (by decide) (by decide)⟩

/-! ### Claim C15: ties in `match_mode` -/

/-- The loop of `match_mode` for the refresh target 0 ends with the kept mode,
when no mode of the list of the requested size is faster, or else with the
first mode of the list of the requested size that is faster than the kept
mode and than every such mode before it, and at least as fast as every such
mode after it. -/
theorem match_mode_loop_first (width height : Int) :
    ∀ (modes : List kanshi_mode) (last : Option kanshi_mode) (delta : Int) (x : kanshi_mode),
      match_mode_loop width height 0 modes last delta = some x →
      (some x = last ∧
        ∀ m ∈ modes, m.width = width → m.height = height → m.refresh ≤ x.refresh) ∨
      (∃ pre post, modes = pre ++ x :: post ∧ x.width = width ∧ x.height = height ∧
        (∀ m ∈ pre, m.width = width → m.height = height → m.refresh < x.refresh) ∧
        (∀ l, last = some l → l.refresh < x.refresh) ∧
        (∀ m ∈ post, m.width = width → m.height = height → m.refresh ≤ x.refresh)) := by
  intro modes
  induction modes with
  | nil =>
    intro last delta x h
    rw [match_mode_loop_nil] at h
    exact Or.inl ⟨h.symm, fun m hm => absurd hm (List.not_mem_nil m)⟩
  | cons mode rest ih =>
    intro last delta x h
    rw [match_mode_loop_cons] at h
    by_cases hdim : mode.width ≠ width ∨ mode.height ≠ height
    · rw [if_pos hdim] at h
      have hnd : ¬ (mode.width = width ∧ mode.height = height) := by
        intro hc; rcases hdim with h' | h'
        · exact h' hc.1
        · exact h' hc.2
      rcases ih last delta x h with ⟨e, hall⟩ | ⟨pre, post, e, hw, hh, hpre, hlast, hpost⟩
      · left
        refine ⟨e, ?_⟩
        intro m hm hmw hmh
        rcases List.mem_cons.1 hm with rfl | hm
        · exact absurd ⟨hmw, hmh⟩ hnd
        · exact hall m hm hmw hmh
      · right
        refine ⟨mode :: pre, post, by rw [e]; rfl, hw, hh, ?_, hlast, hpost⟩
        intro m hm hmw hmh
        rcases List.mem_cons.1 hm with rfl | hm
        · exact absurd ⟨hmw, hmh⟩ hnd
        · exact hpre m hm hmw hmh
    · rw [if_neg hdim, if_neg (by simp)] at h
      simp only [ne_eq, not_or, Decidable.not_not] at hdim
      cases last with
      | none =>
        dsimp only at h
        right
        rcases ih (some mode) delta x h with ⟨e, hall⟩ | ⟨pre, post, e, hw, hh, hpre, hlast, hpost⟩
        · rw [Option.some.injEq] at e
          subst e
          exact ⟨[], rest, rfl, hdim.1, hdim.2, fun m hm => absurd hm (List.not_mem_nil m),
            fun l hl => by simp at hl, hall⟩
        · have hmx := hlast mode rfl
          refine ⟨mode :: pre, post, by rw [e]; rfl, hw, hh, ?_, fun l hl => by simp at hl,
            hpost⟩
          intro m hm hmw hmh
          rcases List.mem_cons.1 hm with rfl | hm
          · exact hmx
          · exact hpre m hm hmw hmh
      | some l0 =>
        dsimp only at h
        by_cases hgt : mode.refresh > l0.refresh
        · rw [if_pos hgt] at h
          right
          rcases ih (some mode) delta x h with
            ⟨e, hall⟩ | ⟨pre, post, e, hw, hh, hpre, hlast, hpost⟩
          · rw [Option.some.injEq] at e
            subst e
            refine ⟨[], rest, rfl, hdim.1, hdim.2,
              fun m hm => absurd hm (List.not_mem_nil m), ?_, hall⟩
            intro l hl
            rw [Option.some.injEq] at hl
            subst hl
            exact hgt
          · have hmx := hlast mode rfl
            refine ⟨mode :: pre, post, by rw [e]; rfl, hw, hh, ?_, ?_, hpost⟩
            · intro m hm hmw hmh
              rcases List.mem_cons.1 hm with rfl | hm
              · exact hmx
              · exact hpre m hm hmw hmh
            · intro l hl
              rw [Option.some.injEq] at hl
              subst hl
              omega
        · rw [if_neg hgt] at h
          rcases ih (some l0) delta x h with
            ⟨e, hall⟩ | ⟨pre, post, e, hw, hh, hpre, hlast, hpost⟩
          · left
            refine ⟨e, ?_⟩
            rw [Option.some.injEq] at e
            subst e
            intro m hm hmw hmh
            rcases List.mem_cons.1 hm with rfl | hm
            · omega
            · exact hall m hm hmw hmh
          · right
            have hlx := hlast l0 rfl
            refine ⟨mode :: pre, post, by rw [e]; rfl, hw, hh, ?_, hlast, hpost⟩
            intro m hm hmw hmh
            rcases List.mem_cons.1 hm with rfl | hm
            · omega
            · exact hpre m hm hmw hmh

/-- C15 as stated fails: of the two modes tied at 60000 mHz, `match_mode` with
the refresh target 0 returns the first (handle 1), not the last (handle 2). -/
theorem match_mode_tie_keeps_first :
    match_mode head_tied_modes 1920 1080 0 = some (mode_1080 1 60000) ∧
    match_mode head_tied_modes 1920 1080 0 ≠ some (mode_1080 2 60000) := by
  refine ⟨by decide, by decide⟩

/-- C15, amended. When some mode of the head has the requested width and
height, `match_mode` with the refresh target 0 returns the first, in the
head's mode iteration order, of the modes of that size that have the highest
refresh rate: every mode of that size before it is strictly slower and every
one after it is at most as fast. -/
theorem match_mode_tie_first (head : kanshi_head) (width height : Int)
    (h : ∃ m ∈ head.modes, m.width = width ∧ m.height = height) :
    ∃ x pre post, match_mode head width height 0 = some x ∧
      head.modes = pre ++ x :: post ∧ x.width = width ∧ x.height = height ∧
      (∀ m ∈ pre, m.width = width → m.height = height → m.refresh < x.refresh) ∧
      (∀ m ∈ post, m.width = width → m.height = height → m.refresh ≤ x.refresh) := by
  cases hr : match_mode head width height 0 with
  | none =>
    exfalso
    unfold match_mode at hr
    obtain ⟨m, hm, hw, hh⟩ := h
    exact ((match_mode_loop_highest width height head.modes none INT32_MAX).1.1 hr).2 m hm
      ⟨hw, hh⟩
  | some x =>
    have hr' : match_mode_loop width height 0 head.modes none INT32_MAX = some x := hr
    rcases match_mode_loop_first width height head.modes none INT32_MAX x hr' with
      ⟨e, _⟩ | ⟨pre, post, e, hw, hh, hpre, _, hpost⟩
    · simp at e
    · exact ⟨x, pre, post, rfl, e, hw, hh, hpre, hpost⟩

/-- Witness for C15: the head with two modes tied at 60000 mHz has a mode of
1920x1080, and the mode returned is the one with handle 1. -/
theorem match_mode_tie_first_witness :
    match_mode head_tied_modes 1920 1080 0 = some (mode_1080 1 60000) ∧
    ∃ x pre post, match_mode head_tied_modes 1920 1080 0 = some x ∧
      head_tied_modes.modes = pre ++ x :: post ∧ x.width = 1920 ∧ x.height = 1080 ∧
      (∀ m ∈ pre, m.width = 1920 → m.height = 1080 → m.refresh < x.refresh) ∧
      (∀ m ∈ post, m.width = 1920 → m.height = 1080 → m.refresh ≤ x.refresh) :=
  ⟨by decide,
   match_mode_tie_first head_tied_modes 1920 1080
     ⟨mode_1080 1 60000, by decide, by decide, by decide⟩⟩

/-! ### Claim C16: a completion is invoked exactly once -/

/-- The outcome of a configuration submitted before the store was last freed
is not delivered: the handler would read a freed profile. -/
theorem deliver_freed (i : Nat) (o : outcome) (matched : matches_t) (s : session)
    (h : i < s.freed) : deliver i o matched s = none := by
  simp [deliver, h]

/-- In the scenario, after a switch to `docked` and a reload, the failed
outcome of the configuration the switch submitted is not delivered:
`config_handle_failed` would read the name of a profile of the freed store. -/
theorem run_outcome_after_reload :
    run scenario_session [event.switch 7 (some "docked") [],
      event.reload 8 (some reloaded_config) [], event.outcome 0 outcome.failed []] = none ∧
    enabled reloaded_session (event.outcome 1 outcome.failed []) = false ∧
    enabled reloaded_session (event.outcome 2 outcome.failed []) = true := by
  decide

end Kanshi
